import Mathlib

/-!
Formal model of the response-normalization pipeline of the legal-assistant
backend (src/utils/response_formatter.py and src/services/gemini_service.py).

The Python code consumes the raw text produced by the external model, cleans
markdown code fences, parses JSON, validates and coerces fields, and always
produces a five-field AnalysisResponse record.  Each Python function is
translated to an executable Lean definition below; theorems about the claims
follow after the definitions.

Modelling notes (stated once here, referenced at the definitions):
- JSON numbers are modelled as integers.  Floating-point literals, NaN and
  Infinity are outside the model; no claim exercises them.
- Python str objects are modelled by Lean String (lists of Unicode scalar
  values).  A lone surrogate arising from an unpaired \uXXXX escape cannot be
  represented by a Lean Char; the model substitutes U+FFFD there.  json.dumps
  output never contains unpaired surrogates, so the round-trip is unaffected.
- Whitespace sets: json.loads accepts exactly space, tab, newline and carriage
  return between tokens; str.strip() and regex \s additionally cover \x0b and
  \x0c (further Unicode whitespace is omitted from the model, as are Unicode
  digits for regex \d; no claim uses them).
-/

/-! ## Character helpers -/

/-- Whitespace accepted by json.loads between tokens. -/
def jsonWs (c : Char) : Bool :=
  c = ' ' || c = '\t' || c = '\n' || c = '\r'

/-- Whitespace stripped by Python str.strip() and matched by regex \s
(ASCII part; see the modelling notes). -/
def isPyWs (c : Char) : Bool :=
  c = ' ' || c = '\t' || c = '\n' || c = '\r' || c = '\x0b' || c = '\x0c'

/-- Left strip: drop leading whitespace. -/
def trimLeft (l : List Char) : List Char := l.dropWhile isPyWs

/-- Right strip: drop trailing whitespace. -/
def trimRight (l : List Char) : List Char := (l.reverse.dropWhile isPyWs).reverse

/-- Python str.strip() on a character list. -/
def pyTrim (l : List Char) : List Char := trimRight (trimLeft l)

/-- Python str.strip() on a string. -/
def pyStripS (s : String) : String := String.mk (pyTrim s.data)

/-! ## JSON values (result of json.loads) -/

inductive Json where
  | null : Json
  | bool : Bool → Json
  | num : Int → Json
  | str : String → Json
  | arr : List Json → Json
  | obj : List (String × Json) → Json

/-- Python dict lookup (keys are unique in lists built by the parser and the
dict operations below, so first match is the dict entry). -/
def dictGet : List (String × Json) → String → Option Json
  | [], _ => none
  | (k, v) :: rest, key => if k = key then some v else dictGet rest key

/-- Python dict assignment: replace the value of an existing key in place,
otherwise append the new pair (CPython insertion-order semantics). -/
def dictSet : List (String × Json) → String → Json → List (String × Json)
  | [], key, v => [(key, v)]
  | (k, w) :: rest, key, v =>
    if k = key then (key, v) :: rest else (k, w) :: dictSet rest key v

/-- Build a Python dict from parsed key/value pairs in order; a repeated key
keeps its first position and receives the last value, as in CPython. -/
def objFromPairs (pairs : List (String × Json)) : List (String × Json) :=
  pairs.foldl (fun d kv => dictSet d kv.1 kv.2) []

/-! ## json.loads -/

def skipWs : List Char → List Char
  | c :: l => if jsonWs c then skipWs l else c :: l
  | [] => []

def hexDigVal (c : Char) : Option Nat :=
  if '0' ≤ c ∧ c ≤ '9' then some (c.toNat - 48)
  else if 'a' ≤ c ∧ c ≤ 'f' then some (c.toNat - 87)
  else if 'A' ≤ c ∧ c ≤ 'F' then some (c.toNat - 55)
  else none

def hex4Val (a b c d : Char) : Option Nat := do
  let x1 ← hexDigVal a
  let x2 ← hexDigVal b
  let x3 ← hexDigVal c
  let x4 ← hexDigVal d
  some (4096 * x1 + 256 * x2 + 16 * x3 + x4)

/-- Replacement character used where Python would keep a lone surrogate. -/
def replChar : Char := Char.ofNat 0xFFFD

/-- Prepend a character to the string component of a parse result. -/
def consF (c : Char) (o : Option (List Char × List Char)) :
    Option (List Char × List Char) :=
  o.map (fun p => (c :: p.1, p.2))

/-- Decode a \uXXXX escape after the backslash-u prefix: the four hex
digits, with surrogate-pair combination as json.loads performs it.  Returns
the decoded character and how many characters were consumed (4, or 10 when a
surrogate pair was combined: four hex digits plus the second escape); an unpaired surrogate yields U+FFFD (see the
modelling notes). -/
def decodeU : List Char → Option (Char × Nat)
  | h1 :: h2 :: h3 :: h4 :: rest3 =>
    match hex4Val h1 h2 h3 h4 with
    | none => none
    | some n =>
      if 0xD800 ≤ n ∧ n < 0xDC00 then
        match rest3 with
        | b1 :: b2 :: g1 :: g2 :: g3 :: g4 :: _ =>
          if b1 = '\\' ∧ b2 = 'u' then
            match hex4Val g1 g2 g3 g4 with
            | some m =>
              if 0xDC00 ≤ m ∧ m < 0xE000 then
                some (Char.ofNat (0x10000 + (n - 0xD800) * 0x400 + (m - 0xDC00)), 10)
              else some (replChar, 4)
            | none => some (replChar, 4)
          else some (replChar, 4)
        | _ => some (replChar, 4)
      else if 0xDC00 ≤ n ∧ n < 0xE000 then some (replChar, 4)
      else some (Char.ofNat n, 4)
  | _ => none

/-- Parse a JSON string body after the opening quote, strict mode of
json.loads: the standard escapes, \uXXXX via decodeU, and a hard error on
raw control characters. -/
def parseStrBody : List Char → Option (List Char × List Char)
  | [] => none
  | c :: rest =>
    if c = '"' then some ([], rest)
    else if c = '\\' then
      match rest with
      | [] => none
      | e :: rest2 =>
        if e = '"' then consF '"' (parseStrBody rest2)
        else if e = '\\' then consF '\\' (parseStrBody rest2)
        else if e = '/' then consF '/' (parseStrBody rest2)
        else if e = 'b' then consF '\x08' (parseStrBody rest2)
        else if e = 'f' then consF '\x0c' (parseStrBody rest2)
        else if e = 'n' then consF '\n' (parseStrBody rest2)
        else if e = 'r' then consF '\r' (parseStrBody rest2)
        else if e = 't' then consF '\t' (parseStrBody rest2)
        else if e = 'u' then
          match decodeU rest2 with
          | some dk => consF dk.1 (parseStrBody (rest2.drop dk.2))
          | none => none
        else none
    else if c.toNat < 0x20 then none
    else consF c (parseStrBody rest)
termination_by l => l.length
decreasing_by
  all_goals simp_wf
  all_goals subst_vars
  all_goals omega

def digitsToNat (l : List Char) : Nat :=
  l.foldl (fun acc c => 10 * acc + (c.toNat - 48)) 0

/-- Parse an unsigned JSON integer: a single 0, or a nonzero digit followed
by more digits (the JSON grammar forbids leading zeros). -/
def parseUNat : List Char → Option (Nat × List Char)
  | [] => none
  | c :: rest =>
    if c = '0' then some (0, rest)
    else if c.isDigit then
      let p := List.span Char.isDigit (c :: rest)
      some (digitsToNat p.1, p.2)
    else none

def parseNum : List Char → Option (Int × List Char)
  | [] => none
  | c :: rest =>
    if c = '-' then (parseUNat rest).map (fun p => (-(p.1 : Int), p.2))
    else (parseUNat (c :: rest)).map (fun p => ((p.1 : Int), p.2))

mutual

/-- One step of the json.loads value scanner.  The fuel argument bounds the
nesting recursion; jsonLoads supplies input length + 1, which always
suffices. -/
def parseVal : Nat → List Char → Option (Json × List Char)
  | 0, _ => none
  | f + 1, input =>
    match skipWs input with
    | [] => none
    | c :: rest =>
      if c = '"' then
        (parseStrBody rest).map (fun p => (Json.str (String.mk p.1), p.2))
      else if c = '\x7b' then
        match skipWs rest with
        | d :: r2 =>
          if d = '\x7d' then some (Json.obj [], r2)
          else (parseMembers f rest).map (fun p => (Json.obj (objFromPairs p.1), p.2))
        | [] => (parseMembers f rest).map (fun p => (Json.obj (objFromPairs p.1), p.2))
      else if c = '[' then
        match skipWs rest with
        | d :: r2 =>
          if d = ']' then some (Json.arr [], r2)
          else (parseElems f rest).map (fun p => (Json.arr p.1, p.2))
        | [] => (parseElems f rest).map (fun p => (Json.arr p.1, p.2))
      else if c = 't' then
        match rest with
        | 'r' :: 'u' :: 'e' :: r => some (Json.bool true, r)
        | _ => none
      else if c = 'f' then
        match rest with
        | 'a' :: 'l' :: 's' :: 'e' :: r => some (Json.bool false, r)
        | _ => none
      else if c = 'n' then
        match rest with
        | 'u' :: 'l' :: 'l' :: r => some (Json.null, r)
        | _ => none
      else
        (parseNum (c :: rest)).map (fun p => (Json.num p.1, p.2))
termination_by f _ => (f, 0)

/-- Elements of a nonempty JSON array, up to and including the closing
bracket. -/
def parseElems : Nat → List Char → Option (List Json × List Char)
  | 0, _ => none
  | f + 1, input => do
    let (v, r) ← parseVal (f + 1) input
    match skipWs r with
    | ',' :: r2 => do
      let (xs, r3) ← parseElems f r2
      some (v :: xs, r3)
    | ']' :: r2 => some ([v], r2)
    | _ => none
termination_by f _ => (f, 1)

/-- Members of a nonempty JSON object, up to and including the closing
brace. -/
def parseMembers : Nat → List Char → Option (List (String × Json) × List Char)
  | 0, _ => none
  | f + 1, input =>
    match skipWs input with
    | '"' :: rest => do
      let (k, r) ← parseStrBody rest
      match skipWs r with
      | ':' :: r2 => do
        let (v, r3) ← parseVal (f + 1) r2
        match skipWs r3 with
        | ',' :: r4 => do
          let (kvs, r5) ← parseMembers f r4
          some ((String.mk k, v) :: kvs, r5)
        | '\x7d' :: r4 => some ([(String.mk k, v)], r4)
        | _ => none
      | _ => none
    | _ => none
termination_by f _ => (f, 1)

end

/-- json.loads: parse one value and require that only whitespace remains. -/
def jsonLoads (s : String) : Option Json :=
  match parseVal (s.data.length + 1) s.data with
  | some (v, rest) => if skipWs rest = [] then some v else none
  | none => none

/-! ## json.dumps (default options: ensure_ascii, separators (", ", ": ")) -/

/-- Decimal digits of a natural number, most significant first. -/
def natDigits (n : Nat) : List Char :=
  if h : n < 10 then [Char.ofNat (48 + n)]
  else natDigits (n / 10) ++ [Char.ofNat (48 + n % 10)]
decreasing_by exact Nat.div_lt_self (by omega) (by omega)

/-- Python repr of an int (also the json.dumps form). -/
def intChars (n : Int) : List Char :=
  if n < 0 then '-' :: natDigits n.natAbs else natDigits n.natAbs

/-- Lowercase hex digit, as Python json uses in \uXXXX escapes. -/
def hexDigChar (d : Nat) : Char :=
  if d < 10 then Char.ofNat (48 + d) else Char.ofNat (87 + d)

/-- Four-digit lowercase hex encoding of n < 0x10000. -/
def hex4Chars (n : Nat) : List Char :=
  [hexDigChar (n / 4096 % 16), hexDigChar (n / 256 % 16),
   hexDigChar (n / 16 % 16), hexDigChar (n % 16)]

/-- json.dumps escaping of one character with ensure_ascii=True
(py_encode_basestring_ascii). -/
def escChar (c : Char) : List Char :=
  if c = '"' then ['\\', '"']
  else if c = '\\' then ['\\', '\\']
  else if c = '\n' then ['\\', 'n']
  else if c = '\r' then ['\\', 'r']
  else if c = '\t' then ['\\', 't']
  else if c = '\x08' then ['\\', 'b']
  else if c = '\x0c' then ['\\', 'f']
  else if c.toNat < 0x20 then '\\' :: 'u' :: hex4Chars c.toNat
  else if c.toNat < 0x7F then [c]
  else if c.toNat < 0x10000 then '\\' :: 'u' :: hex4Chars c.toNat
  else
    '\\' :: 'u' :: hex4Chars (0xD800 + (c.toNat - 0x10000) / 0x400) ++
      ('\\' :: 'u' :: hex4Chars (0xDC00 + (c.toNat - 0x10000) % 0x400))

def escList : List Char → List Char
  | [] => []
  | c :: rest => escChar c ++ escList rest

mutual

def dumpsL : Json → List Char
  | Json.null => ['n', 'u', 'l', 'l']
  | Json.bool true => ['t', 'r', 'u', 'e']
  | Json.bool false => ['f', 'a', 'l', 's', 'e']
  | Json.num n => intChars n
  | Json.str s => '"' :: escList s.data ++ ['"']
  | Json.arr [] => ['[', ']']
  | Json.arr (x :: xs) => '[' :: dumpsL x ++ dumpsElems xs ++ [']']
  | Json.obj [] => ['\x7b', '\x7d']
  | Json.obj (kv :: kvs) => '\x7b' :: dumpsMember kv ++ dumpsMembers kvs ++ ['\x7d']

def dumpsMember : String × Json → List Char
  | (k, v) => '"' :: escList k.data ++ '"' :: ':' :: ' ' :: dumpsL v

def dumpsElems : List Json → List Char
  | [] => []
  | x :: xs => ',' :: ' ' :: dumpsL x ++ dumpsElems xs

def dumpsMembers : List (String × Json) → List Char
  | [] => []
  | kv :: kvs => ',' :: ' ' :: dumpsMember kv ++ dumpsMembers kvs

end

/-- json.dumps with CPython default options. -/
def dumps (v : Json) : String := String.mk (dumpsL v)

/-! ## Canonical form produced by re-parsing dumped output

Re-parsing dumps v yields v except that objects go through Python dict
construction (duplicate keys collapse).  canonJ expresses that normal form;
for any value whose objects have no duplicate keys it is the identity. -/

mutual

def canonJ : Json → Json
  | Json.null => Json.null
  | Json.bool b => Json.bool b
  | Json.num n => Json.num n
  | Json.str s => Json.str s
  | Json.arr xs => Json.arr (canonList xs)
  | Json.obj kvs => Json.obj (objFromPairs (canonPairs kvs))

def canonList : List Json → List Json
  | [] => []
  | x :: xs => canonJ x :: canonList xs

def canonPairs : List (String × Json) → List (String × Json)
  | [] => []
  | (k, v) :: kvs => (k, canonJ v) :: canonPairs kvs

end

/-! ## Size measure used to discharge the parser fuel -/

mutual

def sizeJ : Json → Nat
  | Json.null => 1
  | Json.bool _ => 1
  | Json.num _ => 1
  | Json.str _ => 1
  | Json.arr xs => 1 + sizeL xs
  | Json.obj kvs => 1 + sizeM kvs

def sizeL : List Json → Nat
  | [] => 0
  | x :: xs => sizeJ x + 1 + sizeL xs

def sizeM : List (String × Json) → Nat
  | [] => 0
  | (_, v) :: kvs => sizeJ v + 1 + sizeM kvs

end

/-! ## Python str() of parsed JSON values

Used by _validate_response_fields when a field is not textual.  Python str()
of a list or dict is its repr; the repr of a str is modelled with single
quotes and backslash escapes (quote-choice subtleties and exotic escapes are
simplified; no claim depends on the rendered text, only on its being a
string). -/

def pyReprStrBody : List Char → List Char
  | [] => []
  | c :: rest =>
    if c = '\\' then '\\' :: '\\' :: pyReprStrBody rest
    else if c = '\'' then '\\' :: '\'' :: pyReprStrBody rest
    else if c = '\n' then '\\' :: 'n' :: pyReprStrBody rest
    else if c = '\r' then '\\' :: 'r' :: pyReprStrBody rest
    else if c = '\t' then '\\' :: 't' :: pyReprStrBody rest
    else c :: pyReprStrBody rest

mutual

def pyRepr : Json → List Char
  | Json.null => ['N', 'o', 'n', 'e']
  | Json.bool true => ['T', 'r', 'u', 'e']
  | Json.bool false => ['F', 'a', 'l', 's', 'e']
  | Json.num n => intChars n
  | Json.str s => '\'' :: pyReprStrBody s.data ++ ['\'']
  | Json.arr [] => ['[', ']']
  | Json.arr (x :: xs) => '[' :: pyRepr x ++ pyReprElems xs ++ [']']
  | Json.obj [] => ['\x7b', '\x7d']
  | Json.obj (kv :: kvs) => '\x7b' :: pyReprPair kv ++ pyReprPairs kvs ++ ['\x7d']

def pyReprPair : String × Json → List Char
  | (k, v) => '\'' :: pyReprStrBody k.data ++ '\'' :: ':' :: ' ' :: pyRepr v

def pyReprElems : List Json → List Char
  | [] => []
  | x :: xs => ',' :: ' ' :: pyRepr x ++ pyReprElems xs

def pyReprPairs : List (String × Json) → List Char
  | [] => []
  | kv :: kvs => ',' :: ' ' :: pyReprPair kv ++ pyReprPairs kvs

end

/-- Python str() applied to a value parsed from JSON. -/
def pyStr : Json → String
  | Json.str s => s
  | v => String.mk (pyRepr v)

/-! ## config.py -/

def LEGAL_DISCLAIMER : String :=
  "⚠️ LEGAL DISCLAIMER: This response constitutes GENERAL LEGAL INFORMATION ONLY " ++
  "and is NOT personalized legal advice. It is provided by an automated system based on AI analysis. " ++
  "For critical legal matters, consult a qualified attorney in your jurisdiction. " ++
  "The application providers assume no liability for the accuracy or completeness of this information."

/-! ## api/models.py: the AnalysisResponse pydantic model

Construction is modelled as an Option: none models a pydantic
ValidationError (missing field or wrong type; pydantic v2 does not coerce
non-string values inside List[str]).  Extra keys are ignored, as pydantic
does by default. -/

structure AnalysisResponse where
  qualification : String
  applicable_articles : List String
  risks : String
  advice : String
  disclaimer : String
deriving DecidableEq, Repr

def strOf : Json → Option String
  | Json.str s => some s
  | _ => none

def strListOf : Json → Option (List String)
  | Json.arr xs => xs.mapM strOf
  | _ => none

def mkAnalysisResponse (d : List (String × Json)) : Option AnalysisResponse := do
  let q ← dictGet d ("qualification") >>= strOf
  let arts ← dictGet d ("applicable_articles") >>= strListOf
  let rk ← dictGet d ("risks") >>= strOf
  let ad ← dictGet d ("advice") >>= strOf
  let disc ← dictGet d ("disclaimer") >>= strOf
  some { qualification := q, applicable_articles := arts, risks := rk,
         advice := ad, disclaimer := disc }

/-! ## utils/response_formatter.py -/

/-- True when a field counts as absent for the required-field loop:
missing key or a JSON null (Python None). -/
def isAbsentOrNull : Option Json → Bool
  | none => true
  | some Json.null => true
  | some _ => false

def requiredDefaults : List (String × Json) :=
  [(("qualification"), Json.str ""),
   (("applicable_articles"), Json.arr []),
   (("risks"), Json.str ""),
   (("advice"), Json.str ""),
   (("disclaimer"), Json.str LEGAL_DISCLAIMER)]

/-- The required-field loop of _validate_response_fields. -/
def fillDefaults (d0 : List (String × Json)) : List (String × Json) :=
  requiredDefaults.foldl
    (fun d kv => if isAbsentOrNull (dictGet d kv.1) then dictSet d kv.1 kv.2 else d) d0

/-- String coercion of one field: unchanged when already a str, otherwise
replaced by str(value); Python str() never raises here. -/
def coerceStrField (d : List (String × Json)) (k : String) : List (String × Json) :=
  match dictGet d k with
  | some (Json.str _) => d
  | some v => dictSet d k (Json.str (pyStr v))
  | none => dictSet d k (Json.str "")

/-- Split on every comma or newline, as re.split with the class [,\n]. -/
def splitListOnP (p : Char → Bool) : List Char → List (List Char)
  | [] => [[]]
  | c :: rest =>
    let r := splitListOnP p rest
    if p c then [] :: r
    else
      match r with
      | h :: t => (c :: h) :: t
      | [] => [[c]]

/-- The comma/newline article splitter of _validate_response_fields:
split, strip each piece, drop pieces that strip to empty. -/
def splitArticlesStr (s : String) : List String :=
  ((splitListOnP (fun c => c = ',' || c = '\n') s.data).map
      (fun l => pyStripS (String.mk l))).filter (fun x => x ≠ (""))

/-- The applicable_articles branch: a list is kept as-is, a string is split,
anything else becomes the empty list. -/
def coerceArticles (d : List (String × Json)) : List (String × Json) :=
  match dictGet d ("applicable_articles") with
  | some (Json.arr _) => d
  | some (Json.str s) =>
    dictSet d ("applicable_articles") (Json.arr ((splitArticlesStr s).map Json.str))
  | _ => dictSet d ("applicable_articles") (Json.arr [])

/-- _validate_response_fields: fill defaults, coerce the three text fields
and the article list in source order, then unconditionally override the
disclaimer with the canonical constant. -/
def validateResponseFields (d : List (String × Json)) : List (String × Json) :=
  dictSet
    (coerceStrField
      (coerceStrField
        (coerceArticles (coerceStrField (fillDefaults d) ("qualification")))
        ("risks"))
      ("advice"))
    ("disclaimer") (Json.str LEGAL_DISCLAIMER)

/-- The last-resort result built in the generic except branch of
format_response. -/
def genericErrorResponse : AnalysisResponse :=
  { qualification := "Unable to analyze request",
    applicable_articles := [],
    risks := "System error occurred during analysis",
    advice := "Please try again with a clearer query",
    disclaimer := LEGAL_DISCLAIMER }

/-- Prefix test on character lists. -/
def isPrefixL : List Char → List Char → Bool
  | [], _ => true
  | _ :: _, [] => false
  | c :: cs, d :: l => c = d && isPrefixL cs l

/-- Contiguous-substring test, the Python str membership operator. -/
def hasInfix (needle : List Char) : List Char → Bool
  | [] => needle.isEmpty
  | c :: t => isPrefixL needle (c :: t) || hasInfix needle t

/-- _extract_section scanning loop: first line containing the (lowercased)
section name as a substring wins; the content is the next up-to-3 lines
joined and stripped. -/
def extractSecGo (needle : String) : List String → String
  | [] => ""
  | l :: rest =>
    if hasInfix (needle.data.map Char.toLower) (l.data.map Char.toLower) then
      pyStripS (String.intercalate ("\n") (rest.take 3))
    else extractSecGo needle rest

/-- _extract_section: text.split with separator a single newline keeps
empty pieces, as Python str.split does. -/
def extractSection (text sectionName : String) : String :=
  extractSecGo sectionName
    ((splitListOnP (fun c => c = '\n') text.data).map String.mk)

/-! Regex matchers of _extract_articles.  Each of the four patterns is a
direct scanner equivalent of the corresponding re.findall pattern
(case-sensitive, greedy, leftmost, non-overlapping). -/

/-- Match a literal character sequence, returning the rest. -/
def matchLit : List Char → List Char → Option (List Char)
  | [], l => some l
  | c :: cs, d :: l => if c = d then matchLit cs l else none
  | _ :: _, [] => none

/-- Regex \s for pattern scanning (see modelling notes). -/
def isReSpace (c : Char) : Bool := isPyWs c

/-- Pattern (Article\s+\d+[A-Za-z]?(?:\s*-\s*[^,\n]*)?). -/
def matchArticle (l : List Char) : Option (List Char × List Char) := do
  let r1 ← matchLit (("Article").data) l
  let ws1 := r1.takeWhile isReSpace
  let r2 := r1.dropWhile isReSpace
  if ws1.isEmpty then none
  else
    let ds := r2.takeWhile Char.isDigit
    let r3 := r2.dropWhile Char.isDigit
    if ds.isEmpty then none
    else
      let letterPart : List Char × List Char :=
        match r3 with
        | c :: rest => if c.isAlpha then ([c], rest) else ([], r3)
        | [] => ([], [])
      let r4 := letterPart.2
      let ws2 := r4.takeWhile isReSpace
      match r4.dropWhile isReSpace with
      | '-' :: r6 =>
        let ws3 := r6.takeWhile isReSpace
        let r7 := r6.dropWhile isReSpace
        let body := r7.takeWhile (fun c => !(c = ',' || c = '\n'))
        let r8 := r7.dropWhile (fun c => !(c = ',' || c = '\n'))
        some ((("Article").data) ++ ws1 ++ ds ++ letterPart.1 ++ ws2 ++ '-' :: ws3 ++ body, r8)
      | _ => some ((("Article").data) ++ ws1 ++ ds ++ letterPart.1, r4)

/-- Shared shape of (Loi\s+\d{4}-\d+) and (Décret\s+\d{4}-\d+). -/
def matchYearDash (lead : String) (l : List Char) : Option (List Char × List Char) := do
  let r1 ← matchLit lead.data l
  let ws1 := r1.takeWhile isReSpace
  let r2 := r1.dropWhile isReSpace
  if ws1.isEmpty then none
  else
    match r2 with
    | d1 :: d2 :: d3 :: d4 :: '-' :: r3 =>
      if d1.isDigit && d2.isDigit && d3.isDigit && d4.isDigit then
        let ds := r3.takeWhile Char.isDigit
        let r4 := r3.dropWhile Char.isDigit
        if ds.isEmpty then none
        else some (lead.data ++ ws1 ++ d1 :: d2 :: d3 :: d4 :: '-' :: ds, r4)
      else none
    | _ => none

def matchLoi (l : List Char) : Option (List Char × List Char) :=
  matchYearDash ("Loi") l

def matchDecret (l : List Char) : Option (List Char × List Char) :=
  matchYearDash ("Décret") l

/-- Pattern (Code\s+[A-Za-z]+). -/
def matchCode (l : List Char) : Option (List Char × List Char) := do
  let r1 ← matchLit (("Code").data) l
  let ws1 := r1.takeWhile isReSpace
  let r2 := r1.dropWhile isReSpace
  if ws1.isEmpty then none
  else
    let ls := r2.takeWhile Char.isAlpha
    let r3 := r2.dropWhile Char.isAlpha
    if ls.isEmpty then none
    else some ((("Code").data) ++ ws1 ++ ls, r3)

/-- re.findall driver: try the matcher at each position from the left,
continue after a match (all four matchers consume at least one character,
so fuel = length + 1 always suffices). -/
def findAllGo (m : List Char → Option (List Char × List Char)) :
    Nat → List Char → List String
  | 0, _ => []
  | _ + 1, [] => []
  | fuel + 1, c :: t =>
    match m (c :: t) with
    | some (mt, rest) => String.mk mt :: findAllGo m fuel rest
    | none => findAllGo m fuel t

def findAllWith (m : List Char → Option (List Char × List Char)) (s : String) :
    List String :=
  findAllGo m (s.data.length + 1) s.data

/-- The duplicate-removal loop of _extract_articles: a seen-set (membership
only) plus an output list; entries are stripped before the membership test
and before being appended. -/
def dedupGo (seen : List String) : List String → List String
  | [] => []
  | a :: rest =>
    if pyStripS a ∈ seen then dedupGo seen rest
    else pyStripS a :: dedupGo (pyStripS a :: seen) rest

/-- All matches of the four pattern families, in pattern order. -/
def allArticleMatches (text : String) : List String :=
  findAllWith matchArticle text ++ findAllWith matchLoi text ++
    findAllWith matchDecret text ++ findAllWith matchCode text

/-- _extract_articles: collect matches, deduplicate preserving first-seen
order, truncate to 10 (its internal try/except is dead code: the body is
total). -/
def extractArticles (text : String) : List String :=
  (dedupGo [] (allArticleMatches text)).take 10

/-- The sections mapping built by _parse_text_response. -/
def sectionsDict (text : String) : List (String × Json) :=
  [(("qualification"), Json.str (extractSection text ("qualification"))),
   (("applicable_articles"), Json.arr ((extractArticles text).map Json.str)),
   (("risks"), Json.str (extractSection text ("risks"))),
   (("advice"), Json.str (extractSection text ("advice"))),
   (("disclaimer"), Json.str LEGAL_DISCLAIMER)]

/-- _parse_text_response.  It runs inside the JSONDecodeError handler of
format_response, where a raised exception would escape to the caller; the
Option records that possibility (none = escaped exception). -/
def parseTextResponseE (text : String) : Option AnalysisResponse :=
  mkAnalysisResponse (sectionsDict text)

/-- format_response.  The strict-parse branch catches every exception into
the generic error result: a non-dict JSON value makes
_validate_response_fields raise a TypeError (membership test or item
assignment on a non-dict), and a failed pydantic construction raises a
ValidationError, both caught by the blanket except.  A JSON parse failure
falls into the text-extraction handler, whose own failure (none) would
propagate. -/
def formatResponseE (s : String) : Option AnalysisResponse :=
  match jsonLoads s with
  | some (Json.obj kvs) =>
    some ((mkAnalysisResponse (validateResponseFields kvs)).getD genericErrorResponse)
  | some _ => some genericErrorResponse
  | none => parseTextResponseE s

/-- format_response as the total function its callers see. -/
def formatResponse (s : String) : AnalysisResponse :=
  (formatResponseE s).getD genericErrorResponse

/-! ## services/gemini_service.py -/

/-- The backtick character (U+0060). -/
def tick : Char := Char.ofNat 96

/-- The re.sub removal of markdown fence tokens: at each position the
pattern alternation prefers the literal three-backticks-plus-json token,
then the bare three-backtick token; otherwise the scan advances one
character.  Matches are removed. -/
def stripFences : List Char → List Char
  | c :: c2 :: c3 :: rest3 =>
    if c = tick ∧ c2 = tick ∧ c3 = tick then
      match rest3 with
      | 'j' :: 's' :: 'o' :: 'n' :: rest7 => stripFences rest7
      | r7 => stripFences r7
    else c :: stripFences (c2 :: c3 :: rest3)
  | c :: rest => c :: stripFences rest
  | [] => []
termination_by l => l.length
decreasing_by all_goals (simp_wf; try omega)

/-- The cleanup _call_gemini applies to the model text: strip, remove fence
tokens, strip again. -/
def geminiClean (text : String) : String :=
  String.mk (pyTrim (stripFences (pyTrim text.data)))

/-- The dict literal of _error_fallback (the first 100 characters of the
message are embedded, Python slice semantics). -/
def errJson (error : String) : Json :=
  Json.obj
    [(("qualification"), Json.str "Erreur d'analyse"),
     (("applicable_articles"), Json.arr []),
     (("risks"), Json.str ("Une erreur est survenue : " ++ String.mk (error.data.take 100))),
     (("advice"), Json.str "Contactez le support si le problème persiste."),
     (("disclaimer"), Json.str "Erreur système.")]

/-- GeminiService._error_fallback. -/
def errorFallback (error : String) : String := dumps (errJson error)

/-- The dict literal of _timeout_fallback. -/
def timeoutJson : Json :=
  Json.obj
    [(("qualification"), Json.str "Délai d'attente dépassé"),
     (("applicable_articles"), Json.arr []),
     (("risks"), Json.str "L'analyse a pris trop de temps."),
     (("advice"), Json.str "Veuillez réessayer avec une question plus courte."),
     (("disclaimer"), Json.str "Erreur système.")]

/-- GeminiService._timeout_fallback. -/
def timeoutFallback : String := dumps timeoutJson

/-- The post-processing of _call_gemini on successfully received model text:
clean the text, re-serialize it when it parses as JSON, otherwise substitute
the French error fallback.  (The single-key nested-JSON check in the source
is a no-op: its branch body is pass.) -/
def callGeminiPost (text : String) : String :=
  match jsonLoads (geminiClean text) with
  | some data => dumps data
  | none => errorFallback ("L'IA a produit un format incompatible.")

/-- The full success path of the service as routes.py composes it: model
text through _call_gemini post-processing, then format_response. -/
def fullPipeline (raw : String) : AnalysisResponse :=
  formatResponse (callGeminiPost raw)

/-! ## The Normalizer interface of the specification -/

/-- RawModelOutput: result of the Model Invoker. -/
inductive RawModelOutput where
  | success (text : String) : RawModelOutput
  | timeout : RawModelOutput
  | error (message : String) : RawModelOutput

/-- The Normalizer with the exception possibility made explicit: the timeout
and error variants are rendered by the service fallbacks and then pass
through format_response, as GeminiService.analyze and routes.py compose
them; success text reaches format_response directly. -/
def normalizeE : RawModelOutput → Option AnalysisResponse
  | RawModelOutput.success t => formatResponseE t
  | RawModelOutput.timeout => formatResponseE timeoutFallback
  | RawModelOutput.error m => formatResponseE (errorFallback m)

/-- The Normalizer as a total function. -/
def normalizeOut (x : RawModelOutput) : AnalysisResponse :=
  (normalizeE x).getD genericErrorResponse

/-! ## Specification-side definitions used to state claims -/

/-- Order-preserving first-occurrence deduplication, stated independently of
the seen-set loop in the source. -/
def firstSeen : List String → List String
  | [] => []
  | a :: l => a :: firstSeen (l.filter (fun b => b ≠ a))
termination_by l => l.length
decreasing_by simp_wf; exact Nat.lt_succ_of_le (List.length_filter_le _ _)

/-- Markdown code-fence wrapping, as in the fence-stripping claim. -/
def fenceWrap (t : String) : String := "```json\n" ++ t ++ "\n```"

/-- Suffix lists whose first character cannot extend a fence token match
across a split point. -/
def fenceSafe : List Char → Prop
  | [] => True
  | c :: _ => c ≠ tick ∧ c ≠ 'j' ∧ c ≠ 's' ∧ c ≠ 'o' ∧ c ≠ 'n'

/-! # Theorems -/

/-! ## Elementary facts about characters, sizes and whitespace -/

theorem sizeJ_pos (v : Json) : 1 ≤ sizeJ v := by
  cases v <;> simp [sizeJ]

theorem toNat_ofNat_valid (n : Nat) (h : Nat.isValidChar n) :
    (Char.ofNat n).toNat = n := by
  simp [Char.ofNat, h, Char.ofNatAux, Char.toNat, UInt32.toNat, BitVec.toNat_ofNat]

theorem char_valid_range (c : Char) :
    c.toNat < 0xD800 ∨ (0xE000 ≤ c.toNat ∧ c.toNat < 0x110000) := by
  rcases c.valid with h | ⟨h1, h2⟩
  · left; exact h
  · right; exact ⟨h1, h2⟩

theorem isDigit_toNat {c : Char} (h : c.isDigit = true) :
    48 ≤ c.toNat ∧ c.toNat ≤ 57 := by
  have e48 : ((48 : UInt32).toBitVec).toNat = 48 := rfl
  have e57 : ((57 : UInt32).toBitVec).toNat = 57 := rfl
  simp only [Char.isDigit, Char.le_def, UInt32.le_def, BitVec.le_def, Char.toNat,
    UInt32.toNat, Bool.and_eq_true, decide_eq_true_eq] at h ⊢
  omega

theorem isDigit_of_toNat {c : Char} (h1 : 48 ≤ c.toNat) (h2 : c.toNat ≤ 57) :
    c.isDigit = true := by
  have e48 : ((48 : UInt32).toBitVec).toNat = 48 := rfl
  have e57 : ((57 : UInt32).toBitVec).toNat = 57 := rfl
  simp only [Char.isDigit, Char.le_def, UInt32.le_def, BitVec.le_def, Char.toNat,
    UInt32.toNat, Bool.and_eq_true, decide_eq_true_eq] at h1 h2 ⊢
  omega

theorem ne_of_digit_of_not {c d : Char} (h : c.isDigit = true)
    (hd : d.isDigit = false) : c ≠ d := by
  intro e; subst e; rw [h] at hd; cases hd

theorem ne_of_toNat_ne {c d : Char} (h : c.toNat ≠ d.toNat) : c ≠ d := by
  intro e; exact h (by rw [e])

theorem skipWs_cons_ws {c : Char} (l : List Char) (h : jsonWs c = true) :
    skipWs (c :: l) = skipWs l := by
  simp [skipWs, h]

theorem skipWs_cons_not {c : Char} (l : List Char) (h : jsonWs c = false) :
    skipWs (c :: l) = c :: l := by
  simp [skipWs, h]

theorem parseVal_ws {c : Char} (f : Nat) (l : List Char) (h : jsonWs c = true) :
    parseVal f (c :: l) = parseVal f l := by
  cases f with
  | zero => simp [parseVal]
  | succ f => simp only [parseVal]; rw [skipWs_cons_ws l h]

theorem parseElems_ws {c : Char} (f : Nat) (l : List Char) (h : jsonWs c = true) :
    parseElems f (c :: l) = parseElems f l := by
  cases f with
  | zero => simp [parseElems]
  | succ f => simp only [parseElems]; rw [parseVal_ws _ l h]

theorem parseMembers_ws {c : Char} (f : Nat) (l : List Char) (h : jsonWs c = true) :
    parseMembers f (c :: l) = parseMembers f l := by
  cases f with
  | zero => simp [parseMembers]
  | succ f => simp only [parseMembers]; rw [skipWs_cons_ws l h]

/-! ## Round-trip of the string escaping -/

theorem hexDigVal_hexDigChar : ∀ d < 16, hexDigVal (hexDigChar d) = some d := by
  decide

theorem hex4Val_encode (n : Nat) (h : n < 0x10000) :
    hex4Val (hexDigChar (n / 4096 % 16)) (hexDigChar (n / 256 % 16))
      (hexDigChar (n / 16 % 16)) (hexDigChar (n % 16)) = some n := by
  have e1 := hexDigVal_hexDigChar (n / 4096 % 16) (by omega)
  have e2 := hexDigVal_hexDigChar (n / 256 % 16) (by omega)
  have e3 := hexDigVal_hexDigChar (n / 16 % 16) (by omega)
  have e4 := hexDigVal_hexDigChar (n % 16) (by omega)
  simp [hex4Val, e1, e2, e3, e4]
  omega


theorem decodeU_nonsurrogate (n : Nat) (h : n < 0x10000)
    (hs1 : ¬(0xD800 ≤ n ∧ n < 0xDC00)) (hs2 : ¬(0xDC00 ≤ n ∧ n < 0xE000))
    (tail : List Char) :
    decodeU (hexDigChar (n / 4096 % 16) :: hexDigChar (n / 256 % 16) ::
      hexDigChar (n / 16 % 16) :: hexDigChar (n % 16) :: tail) =
      some (Char.ofNat n, 4) := by
  simp [decodeU, hex4Val_encode n h, hs1, hs2]

theorem decodeU_pair (hi lo : Nat) (hhi : 0xD800 ≤ hi ∧ hi < 0xDC00)
    (hhiB : hi < 0x10000) (hlo : 0xDC00 ≤ lo ∧ lo < 0xE000) (hloB : lo < 0x10000)
    (tail : List Char) :
    decodeU (hexDigChar (hi / 4096 % 16) :: hexDigChar (hi / 256 % 16) ::
      hexDigChar (hi / 16 % 16) :: hexDigChar (hi % 16) :: '\\' :: 'u' ::
      hexDigChar (lo / 4096 % 16) :: hexDigChar (lo / 256 % 16) ::
      hexDigChar (lo / 16 % 16) :: hexDigChar (lo % 16) :: tail) =
      some (Char.ofNat (0x10000 + (hi - 0xD800) * 0x400 + (lo - 0xDC00)), 10) := by
  simp [decodeU, hex4Val_encode hi hhiB, hex4Val_encode lo hloB, hhi, hlo]

theorem parseStrBody_escChar (c : Char) (tail cs rest : List Char)
    (ht : parseStrBody tail = some (cs, rest)) :
    parseStrBody (escChar c ++ tail) = some (c :: cs, rest) := by
  by_cases h1 : c = '"'
  · subst h1; simp [escChar, parseStrBody, consF, ht]
  by_cases h2 : c = '\\'
  · subst h2; simp [escChar, parseStrBody, consF, ht]
  by_cases h3 : c = '\n'
  · subst h3; simp [escChar, parseStrBody, consF, ht]
  by_cases h4 : c = '\r'
  · subst h4; simp [escChar, parseStrBody, consF, ht]
  by_cases h5 : c = '\t'
  · subst h5; simp [escChar, parseStrBody, consF, ht]
  by_cases h6 : c = '\x08'
  · subst h6; simp [escChar, parseStrBody, consF, ht]
  by_cases h7 : c = '\x0c'
  · subst h7; simp [escChar, parseStrBody, consF, ht]
  by_cases hc1 : c.toNat < 0x20
  · have hlt : c.toNat < 0x10000 := by omega
    have hs1 : ¬(0xD800 ≤ c.toNat ∧ c.toNat < 0xDC00) := by omega
    have hs2 : ¬(0xDC00 ≤ c.toNat ∧ c.toNat < 0xE000) := by omega
    simp [escChar, h1, h2, h3, h4, h5, h6, h7, hc1, parseStrBody,
      decodeU_nonsurrogate c.toNat hlt hs1 hs2, hex4Chars, consF, ht, Char.ofNat_toNat]
  by_cases hc2 : c.toNat < 0x7F
  · rw [show escChar c = [c] by
      simp [escChar, h1, h2, h3, h4, h5, h6, h7, hc1, hc2]]
    rw [List.cons_append, List.nil_append, parseStrBody.eq_def]
    simp [h1, h2, hc1, consF, ht]
  by_cases hc3 : c.toNat < 0x10000
  · have hs1 : ¬(0xD800 ≤ c.toNat ∧ c.toNat < 0xDC00) := by
      rcases char_valid_range c with hv | ⟨hv1, hv2⟩ <;> omega
    have hs2 : ¬(0xDC00 ≤ c.toNat ∧ c.toNat < 0xE000) := by
      rcases char_valid_range c with hv | ⟨hv1, hv2⟩ <;> omega
    simp [escChar, h1, h2, h3, h4, h5, h6, h7, hc1, hc2, hc3, parseStrBody,
      decodeU_nonsurrogate c.toNat hc3 hs1 hs2, hex4Chars, consF, ht, Char.ofNat_toNat]
  · have hub : c.toNat < 0x110000 := by
      rcases char_valid_range c with hv | ⟨hv1, hv2⟩ <;> omega
    have hhi : 0xD800 ≤ 0xD800 + (c.toNat - 0x10000) / 0x400 ∧
        0xD800 + (c.toNat - 0x10000) / 0x400 < 0xDC00 := by omega
    have hhiB : 0xD800 + (c.toNat - 0x10000) / 0x400 < 0x10000 := by omega
    have hlo : 0xDC00 ≤ 0xDC00 + (c.toNat - 0x10000) % 0x400 ∧
        0xDC00 + (c.toNat - 0x10000) % 0x400 < 0xE000 := by omega
    have hloB : 0xDC00 + (c.toNat - 0x10000) % 0x400 < 0x10000 := by omega
    have harg : 0x10000 +
        (0xD800 + (c.toNat - 0x10000) / 0x400 - 0xD800) * 0x400 +
        (0xDC00 + (c.toNat - 0x10000) % 0x400 - 0xDC00) = c.toNat := by omega
    simp [escChar, h1, h2, h3, h4, h5, h6, h7, hc1, hc2, hc3, parseStrBody,
      decodeU_pair _ _ hhi hhiB hlo hloB, hex4Chars, harg, consF, ht, Char.ofNat_toNat]
    have e2 : 65536 + (c.toNat - 65536) / 1024 * 1024 + (c.toNat - 65536) % 1024 =
        c.toNat := by omega
    rw [e2, Char.ofNat_toNat]

theorem parseStrBody_escape (s : List Char) (rest : List Char) :
    parseStrBody (escList s ++ ('"' :: rest)) = some (s, rest) := by
  induction s with
  | nil =>
    rw [show escList [] ++ ('"' :: rest) = '"' :: rest by simp [escList]]
    rw [parseStrBody.eq_def]
    simp
  | cons c cs ih =>
    have h := parseStrBody_escChar c (escList cs ++ ('"' :: rest)) cs rest ih
    simpa [escList, List.append_assoc] using h

/-! ## Round-trip of the integer printing -/

theorem natDigits_all (n : Nat) : ∀ c ∈ natDigits n, c.isDigit = true := by
  induction n using Nat.strong_induction_on with
  | _ n ih =>
    rw [natDigits]
    split
    · intro c hc
      simp only [List.mem_singleton] at hc
      subst hc
      have hv : Nat.isValidChar (48 + n) := Or.inl (by omega)
      apply isDigit_of_toNat <;> rw [toNat_ofNat_valid _ hv] <;> omega
    · intro c hc
      rcases List.mem_append.mp hc with hm | hm
      · exact ih (n / 10) (Nat.div_lt_self (by omega) (by omega)) c hm
      · simp only [List.mem_singleton] at hm
        subst hm
        have hv : Nat.isValidChar (48 + n % 10) := Or.inl (by omega)
        apply isDigit_of_toNat <;> rw [toNat_ofNat_valid _ hv] <;> omega

theorem natDigits_cons (n : Nat) :
    ∃ c t, natDigits n = c :: t ∧ c.isDigit = true ∧ (n = 0 ∨ c ≠ '0') := by
  induction n using Nat.strong_induction_on with
  | _ n ih =>
    rw [natDigits]
    split
    · refine ⟨Char.ofNat (48 + n), [], rfl, ?_, ?_⟩
      · have hv : Nat.isValidChar (48 + n) := Or.inl (by omega)
        apply isDigit_of_toNat <;> rw [toNat_ofNat_valid _ hv] <;> omega
      · by_cases h0 : n = 0
        · exact Or.inl h0
        · refine Or.inr (ne_of_toNat_ne ?_)
          have hv : Nat.isValidChar (48 + n) := Or.inl (by omega)
          rw [toNat_ofNat_valid _ hv]
          have : ('0').toNat = 48 := rfl
          omega
    · rename_i hge
      obtain ⟨c, t, hct, hd, h0⟩ := ih (n / 10) (Nat.div_lt_self (by omega) (by omega))
      refine ⟨c, t ++ [Char.ofNat (48 + n % 10)], by rw [hct]; rfl, hd, Or.inr ?_⟩
      rcases h0 with h0 | h0
      · exfalso
        rw [h0] at hct
        have := natDigits_all 0
        rw [show natDigits 0 = ['0'] by rw [natDigits]; rfl] at hct
        simp at hct
        obtain ⟨hc, _⟩ := hct
        omega
      · exact h0

theorem digitsToNat_append (l : List Char) (d : Char) :
    digitsToNat (l ++ [d]) = 10 * digitsToNat l + (d.toNat - 48) := by
  simp [digitsToNat, List.foldl_append]

theorem digitsToNat_natDigits (n : Nat) : digitsToNat (natDigits n) = n := by
  induction n using Nat.strong_induction_on with
  | _ n ih =>
    rw [natDigits]
    split
    · have hv : Nat.isValidChar (48 + n) := Or.inl (by omega)
      simp [digitsToNat, toNat_ofNat_valid _ hv]
    · rw [digitsToNat_append, ih (n / 10) (Nat.div_lt_self (by omega) (by omega))]
      have hv : Nat.isValidChar (48 + n % 10) := Or.inl (by omega)
      rw [toNat_ofNat_valid _ hv]
      omega

theorem takeWhile_all_append (p : Char → Bool) (l1 l2 : List Char)
    (h1 : ∀ c ∈ l1, p c = true)
    (h2 : l2 = [] ∨ ∃ c t, l2 = c :: t ∧ p c = false) :
    (l1 ++ l2).takeWhile p = l1 ∧ (l1 ++ l2).dropWhile p = l2 := by
  induction l1 with
  | nil =>
    rcases h2 with h2 | ⟨c, t, hct, hpc⟩
    · subst h2; simp
    · subst hct; simp [List.takeWhile_cons, List.dropWhile_cons, hpc]
  | cons a l1 ih =>
    have hpa : p a = true := h1 a (by simp)
    have := ih (fun c hc => h1 c (by simp [hc]))
    simp [List.takeWhile_cons, List.dropWhile_cons, hpa, this.1, this.2]

theorem parseUNat_natDigits (n : Nat) (rest : List Char)
    (hrest : rest = [] ∨ ∃ c t, rest = c :: t ∧ c.isDigit = false) :
    parseUNat (natDigits n ++ rest) = some (n, rest) := by
  by_cases h0 : n = 0
  · subst h0
    rw [show natDigits 0 = ['0'] by rw [natDigits]; rfl]
    rw [List.cons_append, List.nil_append, parseUNat.eq_def]
    simp
  · obtain ⟨c, t, hct, hcd, hc0⟩ := natDigits_cons n
    rcases hc0 with hc0 | hc0
    · exact absurd hc0 h0
    rw [hct, List.cons_append, parseUNat.eq_def]
    have hspan := takeWhile_all_append Char.isDigit (c :: t) rest
      (by rw [← hct]; exact natDigits_all n) hrest
    simp only [hc0, if_false, hcd, if_true, List.span_eq_take_drop]
    rw [← List.cons_append, hspan.1, hspan.2, ← hct, digitsToNat_natDigits]

theorem parseNum_intChars (n : Int) (rest : List Char)
    (hrest : rest = [] ∨ ∃ c t, rest = c :: t ∧ c.isDigit = false) :
    parseNum (intChars n ++ rest) = some (n, rest) := by
  by_cases hn : n < 0
  · rw [show intChars n = '-' :: natDigits n.natAbs by simp [intChars, hn]]
    rw [List.cons_append, parseNum.eq_def]
    simp [parseUNat_natDigits n.natAbs rest hrest]
    rw [abs_of_neg hn]
    ring
  · rw [show intChars n = natDigits n.natAbs by simp [intChars, hn]]
    obtain ⟨c, t, hct, hcd, _⟩ := natDigits_cons n.natAbs
    have hcm : c ≠ '-' := ne_of_digit_of_not hcd (by decide)
    rw [hct, List.cons_append, parseNum.eq_def]
    simp only [hcm, if_false]
    rw [← List.cons_append, ← hct, parseUNat_natDigits n.natAbs rest hrest]
    simp
    omega

/-! ## Round-trip of dumps through the parser -/

theorem digit_facts {c : Char} (hcd : c.isDigit = true) :
    jsonWs c = false ∧ c ≠ ']' ∧ c ≠ '\x7d' := by
  obtain ⟨h1, h2⟩ := isDigit_toNat hcd
  refine ⟨?_, ?_, ?_⟩
  · simp only [jsonWs, Bool.or_eq_false_iff, decide_eq_false_iff_not]
    refine ⟨⟨⟨?_, ?_⟩, ?_⟩, ?_⟩
    · exact ne_of_toNat_ne (by rw [show ((' ').toNat) = 32 from rfl]; omega)
    · exact ne_of_toNat_ne (by rw [show (('\t').toNat) = 9 from rfl]; omega)
    · exact ne_of_toNat_ne (by rw [show (('\n').toNat) = 10 from rfl]; omega)
    · exact ne_of_toNat_ne (by rw [show (('\r').toNat) = 13 from rfl]; omega)
  · exact ne_of_toNat_ne (by rw [show ((']').toNat) = 93 from rfl]; omega)
  · exact ne_of_toNat_ne (by rw [show (('\x7d').toNat) = 125 from rfl]; omega)

theorem num_head_ne {c : Char} (h : c.isDigit = true ∨ c = '-') :
    c ≠ '"' ∧ c ≠ '\x7b' ∧ c ≠ '[' ∧ c ≠ 't' ∧ c ≠ 'f' ∧ c ≠ 'n' ∧ jsonWs c = false := by
  rcases h with h | h
  · obtain ⟨h1, h2⟩ := isDigit_toNat h
    refine ⟨?_, ?_, ?_, ?_, ?_, ?_, (digit_facts h).1⟩
    · exact ne_of_toNat_ne (by rw [show (('"').toNat) = 34 from rfl]; omega)
    · exact ne_of_toNat_ne (by rw [show (('\x7b').toNat) = 123 from rfl]; omega)
    · exact ne_of_toNat_ne (by rw [show (('[').toNat) = 91 from rfl]; omega)
    · exact ne_of_toNat_ne (by rw [show (('t').toNat) = 116 from rfl]; omega)
    · exact ne_of_toNat_ne (by rw [show (('f').toNat) = 102 from rfl]; omega)
    · exact ne_of_toNat_ne (by rw [show (('n').toNat) = 110 from rfl]; omega)
  · subst h; refine ⟨by decide, by decide, by decide, by decide, by decide,
      by decide, by decide⟩

theorem mk_data (s : String) : String.mk s.data = s := rfl

theorem dumpsL_head (v : Json) :
    ∃ c t, dumpsL v = c :: t ∧ jsonWs c = false ∧ c ≠ ']' ∧ c ≠ '\x7d' := by
  cases v with
  | null => exact ⟨'n', ['u', 'l', 'l'], by simp [dumpsL], by decide, by decide, by decide⟩
  | bool b =>
    cases b
    · exact ⟨'f', ['a', 'l', 's', 'e'], by simp [dumpsL], by decide, by decide, by decide⟩
    · exact ⟨'t', ['r', 'u', 'e'], by simp [dumpsL], by decide, by decide, by decide⟩
  | num n =>
    by_cases hn : n < 0
    · exact ⟨'-', natDigits n.natAbs, by simp [dumpsL, intChars, hn], by decide,
        by decide, by decide⟩
    · obtain ⟨c, t, hct, hcd, _⟩ := natDigits_cons n.natAbs
      obtain ⟨hw, h1, h2⟩ := digit_facts hcd
      exact ⟨c, t, by simp [dumpsL, intChars, hn, hct], hw, h1, h2⟩
  | str s =>
    exact ⟨'"', escList s.data ++ ['"'], by simp [dumpsL], by decide, by decide, by decide⟩
  | arr xs =>
    cases xs with
    | nil => exact ⟨'[', [']'], by simp [dumpsL], by decide, by decide, by decide⟩
    | cons y ys =>
      exact ⟨'[', dumpsL y ++ dumpsElems ys ++ [']'], by simp [dumpsL], by decide,
        by decide, by decide⟩
  | obj kvs =>
    cases kvs with
    | nil => exact ⟨'\x7b', ['\x7d'], by simp [dumpsL], by decide, by decide, by decide⟩
    | cons kv kvs =>
      exact ⟨'\x7b', dumpsMember kv ++ dumpsMembers kvs ++ ['\x7d'], by simp [dumpsL],
        by decide, by decide, by decide⟩

theorem sizeM_cons (kv : String × Json) (kvs : List (String × Json)) :
    sizeM (kv :: kvs) = sizeJ kv.2 + 1 + sizeM kvs := by
  obtain ⟨a, b⟩ := kv
  simp [sizeM]

mutual

theorem rt_val (v : Json) (f : Nat) (rest : List Char)
    (hf : sizeJ v ≤ f)
    (hrest : rest = [] ∨ ∃ c t, rest = c :: t ∧ c.isDigit = false) :
    parseVal f (dumpsL v ++ rest) = some (canonJ v, rest) := by
  obtain ⟨f, rfl⟩ : ∃ g, f = g + 1 := ⟨f - 1, by have := sizeJ_pos v; omega⟩
  cases v with
  | null =>
    rw [show dumpsL Json.null ++ rest = 'n' :: 'u' :: 'l' :: 'l' :: rest by
      simp [dumpsL]]
    simp only [parseVal]
    rw [skipWs_cons_not _ (by decide)]
    simp [canonJ]
  | bool b =>
    cases b with
    | true =>
      rw [show dumpsL (Json.bool true) ++ rest = 't' :: 'r' :: 'u' :: 'e' :: rest by
        simp [dumpsL]]
      simp only [parseVal]
      rw [skipWs_cons_not _ (by decide)]
      simp [canonJ]
    | false =>
      rw [show dumpsL (Json.bool false) ++ rest = 'f' :: 'a' :: 'l' :: 's' :: 'e' :: rest by
        simp [dumpsL]]
      simp only [parseVal]
      rw [skipWs_cons_not _ (by decide)]
      simp [canonJ]
  | num n =>
    by_cases hn : n < 0
    · have hpn : parseNum ('-' :: (natDigits n.natAbs ++ rest)) = some (n, rest) := by
        rw [show ('-' : Char) :: (natDigits n.natAbs ++ rest) = intChars n ++ rest by
          simp [intChars, hn]]
        exact parseNum_intChars n rest hrest
      rw [show dumpsL (Json.num n) ++ rest = '-' :: (natDigits n.natAbs ++ rest) by
        simp [dumpsL, intChars, hn]]
      simp only [parseVal]
      rw [skipWs_cons_not _ (by decide)]
      simp [hpn, canonJ]
    · obtain ⟨c, t, hct, hcd, _⟩ := natDigits_cons n.natAbs
      obtain ⟨hq, hb, hk, htt, hff, hnn, hws⟩ := num_head_ne (Or.inl hcd)
      have hpn : parseNum (c :: (t ++ rest)) = some (n, rest) := by
        rw [show c :: (t ++ rest) = intChars n ++ rest by simp [intChars, hn, hct]]
        exact parseNum_intChars n rest hrest
      rw [show dumpsL (Json.num n) ++ rest = c :: (t ++ rest) by
        simp [dumpsL, intChars, hn, hct]]
      simp only [parseVal]
      rw [skipWs_cons_not _ hws]
      simp [hq, hb, hk, htt, hff, hnn, hpn, canonJ]
  | str s =>
    rw [show dumpsL (Json.str s) ++ rest = '"' :: (escList s.data ++ ('"' :: rest)) by
      simp [dumpsL]]
    simp only [parseVal]
    rw [skipWs_cons_not _ (by decide)]
    simp [parseStrBody_escape, canonJ, mk_data]
  | arr xs =>
    cases xs with
    | nil =>
      have hsk : skipWs (']' :: rest) = ']' :: rest := skipWs_cons_not _ (by decide)
      rw [show dumpsL (Json.arr []) ++ rest = '[' :: (']' :: rest) by simp [dumpsL]]
      simp only [parseVal]
      rw [skipWs_cons_not _ (by decide)]
      simp [hsk, canonJ, canonList]
    | cons y ys =>
      obtain ⟨c, t, hct, hws, hbr, _⟩ := dumpsL_head y
      have hsk : skipWs (dumpsL y ++ (dumpsElems ys ++ (']' :: rest))) =
          c :: (t ++ (dumpsElems ys ++ (']' :: rest))) := by
        rw [hct, List.cons_append]
        exact skipWs_cons_not _ hws
      have hpe : parseElems f (dumpsL y ++ (dumpsElems ys ++ (']' :: rest))) =
          some (canonJ y :: canonList ys, rest) :=
        rt_elems y ys f rest (by simp [sizeJ, sizeL] at hf; omega)
      rw [show dumpsL (Json.arr (y :: ys)) ++ rest =
          '[' :: (dumpsL y ++ (dumpsElems ys ++ (']' :: rest))) by
        simp [dumpsL, List.append_assoc]]
      simp only [parseVal]
      rw [skipWs_cons_not _ (by decide)]
      simp [hsk, hbr, hpe, canonJ, canonList]
  | obj kvs =>
    cases kvs with
    | nil =>
      have hsk : skipWs ('\x7d' :: rest) = '\x7d' :: rest := skipWs_cons_not _ (by decide)
      rw [show dumpsL (Json.obj []) ++ rest = '\x7b' :: ('\x7d' :: rest) by simp [dumpsL]]
      simp only [parseVal]
      rw [skipWs_cons_not _ (by decide)]
      simp [hsk, canonJ, canonPairs, objFromPairs]
    | cons kv kvs =>
      have hpm : parseMembers f (dumpsMember kv ++ (dumpsMembers kvs ++ ('\x7d' :: rest))) =
          some (canonPairs (kv :: kvs), rest) :=
        rt_members kv kvs f rest (by simp [sizeJ, sizeM_cons] at hf; omega)
      have hshape : dumpsMember kv ++ (dumpsMembers kvs ++ ('\x7d' :: rest)) =
          '"' :: (escList kv.1.data ++ ('"' :: (':' :: (' ' :: (dumpsL kv.2 ++
            (dumpsMembers kvs ++ ('\x7d' :: rest))))))) := by
        rcases kv with ⟨k, v⟩
        simp [dumpsMember, List.append_assoc]
      rw [hshape] at hpm
      have hsk : skipWs ('"' :: (escList kv.1.data ++ ('"' :: (':' :: (' ' :: (dumpsL kv.2 ++
          (dumpsMembers kvs ++ ('\x7d' :: rest)))))))) =
          '"' :: (escList kv.1.data ++ ('"' :: (':' :: (' ' :: (dumpsL kv.2 ++
          (dumpsMembers kvs ++ ('\x7d' :: rest))))))) :=
        skipWs_cons_not _ (by decide)
      rw [show dumpsL (Json.obj (kv :: kvs)) ++ rest =
          '\x7b' :: ('"' :: (escList kv.1.data ++ ('"' :: (':' :: (' ' :: (dumpsL kv.2 ++
            (dumpsMembers kvs ++ ('\x7d' :: rest)))))))) by
        rcases kv with ⟨k, v⟩
        simp [dumpsL, dumpsMember, List.append_assoc]]
      simp only [parseVal]
      rw [skipWs_cons_not _ (by decide)]
      simp [hsk, hpm, canonJ]
termination_by 2 * sizeJ v
decreasing_by
  all_goals simp_wf
  all_goals subst_vars
  all_goals (try simp [sizeJ, sizeL, sizeM, sizeM_cons])
  all_goals omega

theorem rt_elems (x : Json) (xs : List Json) (f : Nat) (rest : List Char)
    (hf : sizeJ x + 1 + sizeL xs ≤ f) :
    parseElems f (dumpsL x ++ (dumpsElems xs ++ (']' :: rest))) =
      some (canonJ x :: canonList xs, rest) := by
  obtain ⟨f, rfl⟩ : ∃ g, f = g + 1 := ⟨f - 1, by have := sizeJ_pos x; omega⟩
  have hx : parseVal (f + 1) (dumpsL x ++ (dumpsElems xs ++ (']' :: rest))) =
      some (canonJ x, dumpsElems xs ++ (']' :: rest)) := by
    apply rt_val x (f + 1) _ (by omega)
    cases xs with
    | nil => exact Or.inr ⟨']', rest, by simp [dumpsElems], by decide⟩
    | cons y ys =>
      exact Or.inr ⟨',', ' ' :: (dumpsL y ++ (dumpsElems ys ++ (']' :: rest))),
        by simp [dumpsElems, List.append_assoc], by decide⟩
  cases xs with
  | nil =>
    have heq : dumpsElems ([] : List Json) ++ (']' :: rest) = ']' :: rest := by
      simp [dumpsElems]
    have hsk : skipWs (']' :: rest) = ']' :: rest := skipWs_cons_not _ (by decide)
    simp only [parseElems]
    rw [hx, heq]
    simp [hsk, canonList]
  | cons y ys =>
    have heq : dumpsElems (y :: ys) ++ (']' :: rest) =
        ',' :: (' ' :: (dumpsL y ++ (dumpsElems ys ++ (']' :: rest)))) := by
      simp [dumpsElems, List.append_assoc]
    have hsk : skipWs (',' :: (' ' :: (dumpsL y ++ (dumpsElems ys ++ (']' :: rest))))) =
        ',' :: (' ' :: (dumpsL y ++ (dumpsElems ys ++ (']' :: rest)))) :=
      skipWs_cons_not _ (by decide)
    have hpe2 : parseElems f (' ' :: (dumpsL y ++ (dumpsElems ys ++ (']' :: rest)))) =
        some (canonJ y :: canonList ys, rest) := by
      rw [parseElems_ws f _ (by decide)]
      exact rt_elems y ys f rest (by simp [sizeL] at hf; omega)
    simp only [parseElems]
    rw [hx, heq]
    simp [hsk, hpe2, canonList]
termination_by 2 * (sizeJ x + sizeL xs) + 1
decreasing_by
  all_goals simp_wf
  all_goals subst_vars
  all_goals (try simp [sizeJ, sizeL, sizeM, sizeM_cons])
  all_goals omega

theorem rt_members (kv : String × Json) (kvs : List (String × Json)) (f : Nat)
    (rest : List Char) (hf : sizeJ kv.2 + 1 + sizeM kvs ≤ f) :
    parseMembers f (dumpsMember kv ++ (dumpsMembers kvs ++ ('\x7d' :: rest))) =
      some (canonPairs (kv :: kvs), rest) := by
  obtain ⟨f, rfl⟩ : ∃ g, f = g + 1 := ⟨f - 1, by have := sizeJ_pos kv.2; omega⟩
  have hps := parseStrBody_escape kv.1.data
    (':' :: (' ' :: (dumpsL kv.2 ++ (dumpsMembers kvs ++ ('\x7d' :: rest)))))
  have hsk2 : skipWs (':' :: (' ' :: (dumpsL kv.2 ++ (dumpsMembers kvs ++ ('\x7d' :: rest))))) =
      ':' :: (' ' :: (dumpsL kv.2 ++ (dumpsMembers kvs ++ ('\x7d' :: rest)))) :=
    skipWs_cons_not _ (by decide)
  have hv : parseVal (f + 1) (' ' :: (dumpsL kv.2 ++ (dumpsMembers kvs ++ ('\x7d' :: rest)))) =
      some (canonJ kv.2, dumpsMembers kvs ++ ('\x7d' :: rest)) := by
    rw [parseVal_ws (f + 1) _ (by decide)]
    apply rt_val kv.2 (f + 1) _ (by omega)
    cases kvs with
    | nil => exact Or.inr ⟨'\x7d', rest, by simp [dumpsMembers], by decide⟩
    | cons kv2 kvs2 =>
      exact Or.inr ⟨',', ' ' :: (dumpsMember kv2 ++ (dumpsMembers kvs2 ++ ('\x7d' :: rest))),
        by simp [dumpsMembers, List.append_assoc], by decide⟩
  rw [show dumpsMember kv ++ (dumpsMembers kvs ++ ('\x7d' :: rest)) =
      '"' :: (escList kv.1.data ++
        ('"' :: (':' :: (' ' :: (dumpsL kv.2 ++ (dumpsMembers kvs ++ ('\x7d' :: rest))))))) by
    rcases kv with ⟨k, v⟩
    simp [dumpsMember, List.append_assoc]]
  simp only [parseMembers]
  rw [skipWs_cons_not _ (by decide)]
  cases kvs with
  | nil =>
    have heq : dumpsMembers ([] : List (String × Json)) ++ ('\x7d' :: rest) =
        '\x7d' :: rest := by simp [dumpsMembers]
    have hsk3 : skipWs ('\x7d' :: rest) = '\x7d' :: rest := skipWs_cons_not _ (by decide)
    rw [heq] at hv hps hsk2
    rw [show canonPairs (kv :: []) = [(kv.1, canonJ kv.2)] by
      rcases kv with ⟨k, v⟩
      simp [canonPairs]]
    simp [hps, hsk2, hv, hsk3, heq, mk_data]
  | cons kv2 kvs2 =>
    have heq : dumpsMembers (kv2 :: kvs2) ++ ('\x7d' :: rest) =
        ',' :: (' ' :: (dumpsMember kv2 ++ (dumpsMembers kvs2 ++ ('\x7d' :: rest)))) := by
      simp [dumpsMembers, List.append_assoc]
    have hsk3 : skipWs (',' :: (' ' :: (dumpsMember kv2 ++
        (dumpsMembers kvs2 ++ ('\x7d' :: rest))))) =
        ',' :: (' ' :: (dumpsMember kv2 ++ (dumpsMembers kvs2 ++ ('\x7d' :: rest)))) :=
      skipWs_cons_not _ (by decide)
    have hm2 : parseMembers f (' ' :: (dumpsMember kv2 ++
        (dumpsMembers kvs2 ++ ('\x7d' :: rest)))) =
        some (canonPairs (kv2 :: kvs2), rest) := by
      rw [parseMembers_ws f _ (by decide)]
      exact rt_members kv2 kvs2 f rest (by simp [sizeM_cons] at hf ⊢; omega)
    rw [heq] at hv hps hsk2
    rw [show canonPairs (kv :: (kv2 :: kvs2)) = (kv.1, canonJ kv.2) :: canonPairs (kv2 :: kvs2) by
      rcases kv with ⟨k, v⟩
      simp [canonPairs]]
    simp [hps, hsk2, hv, heq, hsk3, hm2, mk_data]
termination_by 2 * (sizeJ kv.2 + sizeM kvs) + 1
decreasing_by
  all_goals simp_wf
  all_goals subst_vars
  all_goals (try simp [sizeJ, sizeL, sizeM, sizeM_cons])
  all_goals omega

end

mutual

theorem sizeJ_le_len (v : Json) : sizeJ v ≤ (dumpsL v).length := by
  cases v with
  | null => simp [sizeJ, dumpsL]
  | bool b => cases b <;> simp [sizeJ, dumpsL]
  | num n =>
    obtain ⟨c, t, hct, _, _⟩ := natDigits_cons n.natAbs
    by_cases hn : n < 0 <;> simp [sizeJ, dumpsL, intChars, hn, hct]
  | str s => simp [sizeJ, dumpsL]
  | arr xs =>
    cases xs with
    | nil => simp [sizeJ, sizeL, dumpsL]
    | cons x xs =>
      have h1 := sizeJ_le_len x
      have h2 := sizeL_le_len xs
      simp [sizeJ, sizeL, dumpsL, List.length_append]
      omega
  | obj kvs =>
    cases kvs with
    | nil => simp [sizeJ, sizeM, dumpsL]
    | cons kv kvs =>
      obtain ⟨k, v⟩ := kv
      have h1 := sizeJ_le_len v
      have h2 := sizeM_le_len kvs
      simp [sizeJ, sizeM, dumpsL, dumpsMember, List.length_append]
      omega
termination_by 2 * sizeJ v
decreasing_by
  all_goals simp_wf
  all_goals subst_vars
  all_goals (try simp [sizeJ, sizeL, sizeM, sizeM_cons])
  all_goals omega

theorem sizeL_le_len (xs : List Json) : sizeL xs ≤ (dumpsElems xs).length := by
  cases xs with
  | nil => simp [sizeL, dumpsElems]
  | cons x xs =>
    have h1 := sizeJ_le_len x
    have h2 := sizeL_le_len xs
    simp [sizeL, dumpsElems, List.length_append]
    omega
termination_by 2 * sizeL xs + 1
decreasing_by
  all_goals simp_wf
  all_goals subst_vars
  all_goals (try simp [sizeJ, sizeL, sizeM, sizeM_cons])
  all_goals omega

theorem sizeM_le_len (kvs : List (String × Json)) : sizeM kvs ≤ (dumpsMembers kvs).length := by
  cases kvs with
  | nil => simp [sizeM, dumpsMembers]
  | cons kv kvs =>
    obtain ⟨k, v⟩ := kv
    have h1 := sizeJ_le_len v
    have h2 := sizeM_le_len kvs
    simp [sizeM, dumpsMembers, dumpsMember, List.length_append]
    omega
termination_by 2 * sizeM kvs + 1
decreasing_by
  all_goals simp_wf
  all_goals subst_vars
  all_goals (try simp [sizeJ, sizeL, sizeM, sizeM_cons])
  all_goals omega

end

/-- Re-parsing json.dumps output always succeeds and yields the canonical
form of the dumped value. -/
theorem jsonLoads_dumps (v : Json) : jsonLoads (dumps v) = some (canonJ v) := by
  unfold jsonLoads dumps
  have hdata : (String.mk (dumpsL v)).data = dumpsL v := rfl
  rw [hdata]
  have h := rt_val v ((dumpsL v).length + 1) [] (by have := sizeJ_le_len v; omega)
    (Or.inl rfl)
  rw [List.append_nil] at h
  rw [h]
  simp [skipWs]

/-! ## Facts about the field validation and model construction -/

theorem dictGet_dictSet_self (d : List (String × Json)) (k : String) (v : Json) :
    dictGet (dictSet d k v) k = some v := by
  induction d with
  | nil => simp [dictSet, dictGet]
  | cons kv rest ih =>
    obtain ⟨k1, v1⟩ := kv
    by_cases h : k1 = k
    · subst h; simp [dictSet, dictGet]
    · simp [dictSet, dictGet, h, ih]

theorem mapM_loop_strOf (l : List String) (acc : List String) :
    List.mapM.loop strOf (l.map Json.str) acc = some (acc.reverse ++ l) := by
  induction l generalizing acc with
  | nil => simp [List.mapM.loop]
  | cons a l ih => simp [List.mapM.loop, strOf, ih]

theorem mapM_strOf (l : List String) : (l.map Json.str).mapM strOf = some l := by
  simp [List.mapM, mapM_loop_strOf]

/-- The heuristic text path always produces a result: pydantic construction
succeeds on the sections mapping because every field already has the right
type. -/
theorem parseTextResponseE_eq (text : String) :
    parseTextResponseE text = some
      { qualification := extractSection text ("qualification"),
        applicable_articles := extractArticles text,
        risks := extractSection text ("risks"),
        advice := extractSection text ("advice"),
        disclaimer := LEGAL_DISCLAIMER } := by
  simp [parseTextResponseE, sectionsDict, mkAnalysisResponse, dictGet, strOf, strListOf,
    mapM_loop_strOf]

/-- The validated mapping always carries the canonical disclaimer. -/
theorem validate_disclaimer (kvs : List (String × Json)) :
    dictGet (validateResponseFields kvs) ("disclaimer") = some (Json.str LEGAL_DISCLAIMER) := by
  simp [validateResponseFields, dictGet_dictSet_self]

/-- A successfully constructed model carries exactly the disclaimer stored in
the mapping. -/
theorem mk_disclaimer (d : List (String × Json)) (r : AnalysisResponse)
    (hd : dictGet d ("disclaimer") = some (Json.str LEGAL_DISCLAIMER))
    (h : mkAnalysisResponse d = some r) : r.disclaimer = LEGAL_DISCLAIMER := by
  unfold mkAnalysisResponse at h
  cases hq : dictGet d ("qualification") >>= strOf with
  | none => rw [hq] at h; simp at h
  | some q =>
    rw [hq] at h
    cases ha : dictGet d ("applicable_articles") >>= strListOf with
    | none => rw [ha] at h; simp at h
    | some arts =>
      rw [ha] at h
      cases hr : dictGet d ("risks") >>= strOf with
      | none => rw [hr] at h; simp at h
      | some rk =>
        rw [hr] at h
        cases hv : dictGet d ("advice") >>= strOf with
        | none => rw [hv] at h; simp at h
        | some ad =>
          rw [hv] at h
          rw [hd] at h
          simp [strOf] at h
          rw [← h]

/-- format_response settles every input without an escaping exception. -/
theorem formatResponseE_isSome (s : String) : ∃ r, formatResponseE s = some r := by
  unfold formatResponseE
  cases h : jsonLoads s with
  | none => exact ⟨_, parseTextResponseE_eq s⟩
  | some v => cases v <;> exact ⟨_, rfl⟩

/-- The strict-parse branch output carries the canonical disclaimer whether
or not the pydantic construction succeeds. -/
theorem strict_branch_disclaimer (kvs : List (String × Json)) :
    ((mkAnalysisResponse (validateResponseFields kvs)).getD
        genericErrorResponse).disclaimer = LEGAL_DISCLAIMER := by
  cases hm : mkAnalysisResponse (validateResponseFields kvs) with
  | none => rfl
  | some r =>
    simp only [Option.getD_some]
    exact mk_disclaimer _ _ (validate_disclaimer kvs) hm

/-- Every result of format_response carries the canonical disclaimer. -/
theorem formatResponse_disclaimer (s : String) :
    (formatResponse s).disclaimer = LEGAL_DISCLAIMER := by
  unfold formatResponse formatResponseE
  cases h : jsonLoads s with
  | none => rw [parseTextResponseE_eq s]; rfl
  | some v =>
    cases v with
    | obj kvs => simp only [Option.getD_some]; exact strict_branch_disclaimer kvs
    | null => rfl
    | bool b => rfl
    | num n => rfl
    | str t => rfl
    | arr xs => rfl

/-! ## Facts about the article dedup loop -/

theorem mem_firstSeen (l : List String) (x : String) (h : x ∈ firstSeen l) : x ∈ l := by
  induction l using firstSeen.induct with
  | case1 => simp [firstSeen] at h
  | case2 a t ih =>
    rw [firstSeen] at h
    rcases List.mem_cons.mp h with h1 | h2
    · exact h1 ▸ List.mem_cons_self a t
    · exact List.mem_cons_of_mem a (List.mem_of_mem_filter (ih h2))

theorem nodup_firstSeen (l : List String) : (firstSeen l).Nodup := by
  induction l using firstSeen.induct with
  | case1 => simp [firstSeen]
  | case2 a t ih =>
    rw [firstSeen]
    refine List.nodup_cons.mpr ⟨fun hmem => ?_, ih⟩
    have := List.of_mem_filter (mem_firstSeen _ _ hmem)
    simp at this

theorem dedupGo_eq (l : List String) (seen : List String) :
    dedupGo seen l = firstSeen ((l.map pyStripS).filter (fun a => a ∉ seen)) := by
  induction l generalizing seen with
  | nil => simp [dedupGo, firstSeen]
  | cons a rest ih =>
    rw [dedupGo]
    by_cases h : pyStripS a ∈ seen
    · simp only [h, if_true]
      rw [ih seen]
      simp [h]
    · simp only [h, if_false]
      have hfe : (List.map pyStripS rest).filter (fun b => decide (b ∉ pyStripS a :: seen)) =
          ((List.map pyStripS rest).filter (fun b => decide (b ∉ seen))).filter
            (fun b => decide (b ≠ pyStripS a)) := by
        rw [List.filter_filter]
        apply List.filter_congr
        intro b _
        by_cases hb1 : b = pyStripS a <;> by_cases hb2 : b ∈ seen <;> simp [hb1, hb2]
      rw [show (List.map pyStripS (a :: rest)).filter (fun b => decide (b ∉ seen)) =
          pyStripS a :: (List.map pyStripS rest).filter (fun b => decide (b ∉ seen)) by
        simp [h]]
      rw [firstSeen, ih (pyStripS a :: seen), hfe]

/-- _extract_articles is exactly a first-seen dedup of the stripped matches,
truncated to 10. -/
theorem extractArticles_eq (text : String) :
    extractArticles text =
      (firstSeen ((allArticleMatches text).map pyStripS)).take 10 := by
  rw [extractArticles, dedupGo_eq]
  simp

theorem nodup_extractArticles (text : String) : (extractArticles text).Nodup := by
  rw [extractArticles_eq]
  exact (nodup_firstSeen _).sublist (List.take_sublist _ _)

theorem length_extractArticles (text : String) : (extractArticles text).length ≤ 10 := by
  rw [extractArticles_eq]
  exact List.length_take_le _ _

/-- On the heuristic text path the article list is duplicate-free and capped. -/
theorem textPath_articles (s : String) (h : jsonLoads s = none) :
    (formatResponse s).applicable_articles.Nodup ∧
      (formatResponse s).applicable_articles.length ≤ 10 := by
  unfold formatResponse formatResponseE
  rw [h, parseTextResponseE_eq s]
  exact ⟨nodup_extractArticles s, length_extractArticles s⟩

/-! ## Facts about the markdown fence stripping -/

theorem stripFences_nil : stripFences [] = [] := by rw [stripFences.eq_def]

theorem stripFences_one (c : Char) : stripFences [c] = [c] := by
  rw [stripFences.eq_def]
  simp
  rw [stripFences.eq_def]

theorem stripFences_cons (c : Char) (y : List Char) (hc : c ≠ tick) :
    stripFences (c :: y) = c :: stripFences y := by
  match y with
  | [] => rw [stripFences_nil, stripFences_one]
  | [d] => rw [stripFences.eq_def]
  | d :: e :: y' => rw [stripFences.eq_def]; simp [hc]

theorem stripFences_triple (rest3 : List Char) :
    stripFences (tick :: tick :: tick :: rest3) =
      (match rest3 with
       | 'j' :: 's' :: 'o' :: 'n' :: rest7 => stripFences rest7
       | r7 => stripFences r7) := by
  rw [stripFences.eq_def]
  simp

example (d : Char) (s' : List Char) (hd : d ≠ 'j') :
    stripFences (tick :: tick :: tick :: d :: s') = stripFences (d :: s') := by
  rw [stripFences_triple]
  simp [hd]

example (s' : List Char) (hd : s' = []) :
    stripFences (tick :: tick :: tick :: 'j' :: s') = stripFences ('j' :: s') := by
  rw [stripFences_triple]
  subst hd
  simp

theorem stripFences_two (c c2 : Char) : stripFences [c, c2] = [c, c2] := by
  rw [stripFences.eq_def]; simp; rw [stripFences_one]

theorem stripFences_cons2 (c d : Char) (s' : List Char) (hd : d ≠ tick) :
    stripFences (c :: d :: s') = c :: stripFences (d :: s') := by
  cases s' with
  | nil => rw [stripFences_two, stripFences_one]
  | cons e s'' => rw [stripFences.eq_def]; simp [hd]

theorem stripFences_cons3 (c c2 d : Char) (s' : List Char) (hd : d ≠ tick) :
    stripFences (c :: c2 :: d :: s') = c :: stripFences (c2 :: d :: s') := by
  rw [stripFences.eq_def]; simp [hd]

theorem stripFences_append (l s : List Char) (hs : fenceSafe s) :
    stripFences (l ++ s) = stripFences l ++ stripFences s := by
  cases hsn : s with
  | nil => simp [stripFences_nil]
  | cons d s' =>
    subst hsn
    obtain ⟨hdt, hdj, hds, hdo, hdn⟩ := hs
    match l with
    | [] => simp [stripFences_nil]
    | [c] =>
      rw [List.cons_append, List.nil_append, stripFences_cons2 c d s' hdt, stripFences_one]
      rfl
    | [c, c2] =>
      rw [show ([c, c2] : List Char) ++ d :: s' = c :: c2 :: d :: s' by simp]
      rw [stripFences_cons3 c c2 d s' hdt, stripFences_cons2 c2 d s' hdt, stripFences_two]
      rfl
    | c :: c2 :: c3 :: rest3 =>
      by_cases hc : c = tick ∧ c2 = tick ∧ c3 = tick
      · obtain ⟨rfl, rfl, rfl⟩ := hc
        rw [show (tick :: tick :: tick :: rest3) ++ d :: s' =
            tick :: tick :: tick :: (rest3 ++ d :: s') by simp]
        rw [stripFences_triple, stripFences_triple]
        match rest3 with
        | [] =>
          simp only [List.nil_append]
          rw [show (match (d :: s') with
              | 'j' :: 's' :: 'o' :: 'n' :: rest7 => stripFences rest7
              | r7 => stripFences r7) = stripFences (d :: s') by simp [hdj]]
          rw [stripFences_nil]; rfl
        | [a] =>
          simp only [List.cons_append, List.nil_append]
          by_cases ha : a = 'j'
          · subst ha
            rw [show (match ('j' :: d :: s') with
              | 'j' :: 's' :: 'o' :: 'n' :: rest7 => stripFences rest7
              | r7 => stripFences r7) = stripFences ('j' :: d :: s') by simp [hds]]
            rw [show ('j' : Char) :: d :: s' = ['j'] ++ d :: s' by simp]
            rw [stripFences_append ['j'] (d :: s') ⟨hdt, hdj, hds, hdo, hdn⟩]
          · rw [show (match (a :: d :: s') with
              | 'j' :: 's' :: 'o' :: 'n' :: rest7 => stripFences rest7
              | r7 => stripFences r7) = stripFences (a :: d :: s') by simp [ha]]
            rw [show a :: d :: s' = [a] ++ d :: s' by simp]
            rw [stripFences_append [a] (d :: s') ⟨hdt, hdj, hds, hdo, hdn⟩]
        | [a, b] =>
          simp only [List.cons_append, List.nil_append]
          rw [show a :: b :: d :: s' = [a, b] ++ d :: s' by simp]
          rw [show (match ([a, b] ++ d :: s') with
              | 'j' :: 's' :: 'o' :: 'n' :: rest7 => stripFences rest7
              | r7 => stripFences r7) = stripFences ([a, b] ++ d :: s') by
            by_cases ha : a = 'j'
            · subst ha
              by_cases hb : b = 's'
              · subst hb; simp [hdo]
              · simp [hb]
            · simp [ha]]
          rw [stripFences_append [a, b] (d :: s') ⟨hdt, hdj, hds, hdo, hdn⟩]
        | [a, b, c4] =>
          simp only [List.cons_append, List.nil_append]
          rw [show a :: b :: c4 :: d :: s' = [a, b, c4] ++ d :: s' by simp]
          rw [show (match ([a, b, c4] ++ d :: s') with
              | 'j' :: 's' :: 'o' :: 'n' :: rest7 => stripFences rest7
              | r7 => stripFences r7) = stripFences ([a, b, c4] ++ d :: s') by
            by_cases ha : a = 'j'
            · subst ha
              by_cases hb : b = 's'
              · subst hb
                by_cases hc4 : c4 = 'o'
                · subst hc4; simp [hdn]
                · simp [hc4]
              · simp [hb]
            · simp [ha]]
          rw [stripFences_append [a, b, c4] (d :: s') ⟨hdt, hdj, hds, hdo, hdn⟩]
        | a :: b :: c4 :: d4 :: r =>
          simp only [List.cons_append]
          by_cases ha : a = 'j'
          · subst ha
            by_cases hb : b = 's'
            · subst hb
              by_cases hc4 : c4 = 'o'
              · subst hc4
                by_cases hd4 : d4 = 'n'
                · subst hd4
                  rw [show (match ('j' :: 's' :: 'o' :: 'n' :: (r ++ d :: s')) with
              | 'j' :: 's' :: 'o' :: 'n' :: rest7 => stripFences rest7
              | r7 => stripFences r7) = stripFences (r ++ d :: s') by simp]
                  rw [show (match ('j' :: 's' :: 'o' :: 'n' :: r) with
              | 'j' :: 's' :: 'o' :: 'n' :: rest7 => stripFences rest7
              | r7 => stripFences r7) = stripFences r by simp]
                  rw [stripFences_append r (d :: s') ⟨hdt, hdj, hds, hdo, hdn⟩]
                · rw [show (match ('j' :: 's' :: 'o' :: d4 :: (r ++ d :: s')) with
              | 'j' :: 's' :: 'o' :: 'n' :: rest7 => stripFences rest7
              | r7 => stripFences r7) = stripFences ('j' :: 's' :: 'o' :: d4 :: (r ++ d :: s')) by simp [hd4]]
                  rw [show (match ('j' :: 's' :: 'o' :: d4 :: r) with
              | 'j' :: 's' :: 'o' :: 'n' :: rest7 => stripFences rest7
              | r7 => stripFences r7) = stripFences ('j' :: 's' :: 'o' :: d4 :: r) by simp [hd4]]
                  rw [show ('j' : Char) :: 's' :: 'o' :: d4 :: (r ++ d :: s') = ('j' :: 's' :: 'o' :: d4 :: r) ++ d :: s' by simp]
                  rw [stripFences_append ('j' :: 's' :: 'o' :: d4 :: r) (d :: s') ⟨hdt, hdj, hds, hdo, hdn⟩]
              · rw [show (match ('j' :: 's' :: c4 :: d4 :: (r ++ d :: s')) with
              | 'j' :: 's' :: 'o' :: 'n' :: rest7 => stripFences rest7
              | r7 => stripFences r7) = stripFences ('j' :: 's' :: c4 :: d4 :: (r ++ d :: s')) by simp [hc4]]
                rw [show (match ('j' :: 's' :: c4 :: d4 :: r) with
              | 'j' :: 's' :: 'o' :: 'n' :: rest7 => stripFences rest7
              | r7 => stripFences r7) = stripFences ('j' :: 's' :: c4 :: d4 :: r) by simp [hc4]]
                rw [show ('j' : Char) :: 's' :: c4 :: d4 :: (r ++ d :: s') = ('j' :: 's' :: c4 :: d4 :: r) ++ d :: s' by simp]
                rw [stripFences_append ('j' :: 's' :: c4 :: d4 :: r) (d :: s') ⟨hdt, hdj, hds, hdo, hdn⟩]
            · rw [show (match ('j' :: b :: c4 :: d4 :: (r ++ d :: s')) with
              | 'j' :: 's' :: 'o' :: 'n' :: rest7 => stripFences rest7
              | r7 => stripFences r7) = stripFences ('j' :: b :: c4 :: d4 :: (r ++ d :: s')) by simp [hb]]
              rw [show (match ('j' :: b :: c4 :: d4 :: r) with
              | 'j' :: 's' :: 'o' :: 'n' :: rest7 => stripFences rest7
              | r7 => stripFences r7) = stripFences ('j' :: b :: c4 :: d4 :: r) by simp [hb]]
              rw [show ('j' : Char) :: b :: c4 :: d4 :: (r ++ d :: s') = ('j' :: b :: c4 :: d4 :: r) ++ d :: s' by simp]
              rw [stripFences_append ('j' :: b :: c4 :: d4 :: r) (d :: s') ⟨hdt, hdj, hds, hdo, hdn⟩]
          · rw [show (match (a :: b :: c4 :: d4 :: (r ++ d :: s')) with
              | 'j' :: 's' :: 'o' :: 'n' :: rest7 => stripFences rest7
              | r7 => stripFences r7) = stripFences (a :: b :: c4 :: d4 :: (r ++ d :: s')) by simp [ha]]
            rw [show (match (a :: b :: c4 :: d4 :: r) with
              | 'j' :: 's' :: 'o' :: 'n' :: rest7 => stripFences rest7
              | r7 => stripFences r7) = stripFences (a :: b :: c4 :: d4 :: r) by simp [ha]]
            rw [show a :: b :: c4 :: d4 :: (r ++ d :: s') = (a :: b :: c4 :: d4 :: r) ++ d :: s' by simp]
            rw [stripFences_append (a :: b :: c4 :: d4 :: r) (d :: s') ⟨hdt, hdj, hds, hdo, hdn⟩]
      · rw [show (c :: c2 :: c3 :: rest3) ++ d :: s' =
            c :: c2 :: c3 :: (rest3 ++ d :: s') by simp]
        rw [stripFences.eq_def]
        simp only [hc, if_false]
        rw [show c2 :: c3 :: (rest3 ++ d :: s') = (c2 :: c3 :: rest3) ++ d :: s' by simp]
        rw [stripFences_append (c2 :: c3 :: rest3) (d :: s') ⟨hdt, hdj, hds, hdo, hdn⟩]
        conv_rhs => rw [stripFences.eq_def]
        simp [hc]
termination_by l.length
decreasing_by all_goals (simp_wf; try omega)

theorem isPyWs_ne (c : Char) (h : isPyWs c = true) :
    c ≠ tick ∧ c ≠ 'j' ∧ c ≠ 's' ∧ c ≠ 'o' ∧ c ≠ 'n' := by
  refine ⟨?_, ?_, ?_, ?_, ?_⟩ <;> (intro he; subst he; revert h; decide)

theorem stripFences_no_tick (w : List Char) (hw : ∀ c ∈ w, c ≠ tick) :
    stripFences w = w := by
  induction w with
  | nil => exact stripFences_nil
  | cons c w ih =>
    rw [stripFences_cons c w (hw c (List.mem_cons_self c w))]
    rw [ih (fun c hc => hw c (List.mem_cons_of_mem _ hc))]

theorem stripFences_ws_append (w m : List Char) (hw : ∀ c ∈ w, isPyWs c = true) :
    stripFences (w ++ m) = w ++ stripFences m := by
  induction w with
  | nil => simp
  | cons c w ih =>
    rw [List.cons_append,
      stripFences_cons c (w ++ m) (isPyWs_ne c (hw c (List.mem_cons_self c w))).1,
      ih (fun c hc => hw c (List.mem_cons_of_mem _ hc))]
    rfl

theorem dropWhile_append_gen (p : Char → Bool) (l₁ l₂ : List Char) :
    (l₁ ++ l₂).dropWhile p =
      if (l₁.dropWhile p).isEmpty then l₂.dropWhile p else l₁.dropWhile p ++ l₂ := by
  induction l₁ with
  | nil => simp
  | cons c l ih =>
    by_cases hc : p c
    · simp [List.dropWhile_cons, hc, ih]
    · simp [List.dropWhile_cons, hc]

theorem trimLeft_ws_append (w m : List Char) (hw : ∀ c ∈ w, isPyWs c = true) :
    trimLeft (w ++ m) = trimLeft m := by
  induction w with
  | nil => simp
  | cons c w ih =>
    rw [List.cons_append]
    unfold trimLeft
    rw [List.dropWhile_cons]
    simp [hw c (List.mem_cons_self c w)]
    exact ih (fun c hc => hw c (List.mem_cons_of_mem _ hc))

theorem trimRight_ws_append (m w : List Char) (hw : ∀ c ∈ w, isPyWs c = true) :
    trimRight (m ++ w) = trimRight m := by
  unfold trimRight
  rw [List.reverse_append]
  rw [show w.reverse ++ m.reverse = w.reverse ++ m.reverse from rfl]
  have : (w.reverse ++ m.reverse).dropWhile isPyWs = m.reverse.dropWhile isPyWs := by
    have := trimLeft_ws_append w.reverse m.reverse
      (fun c hc => hw c (List.mem_reverse.mp hc))
    simpa [trimLeft] using this
  rw [this]

theorem pyTrim_ws_left (w m : List Char) (hw : ∀ c ∈ w, isPyWs c = true) :
    pyTrim (w ++ m) = pyTrim m := by
  unfold pyTrim
  rw [trimLeft_ws_append w m hw]

theorem pyTrim_ws_right (m w : List Char) (hw : ∀ c ∈ w, isPyWs c = true) :
    pyTrim (m ++ w) = pyTrim m := by
  unfold pyTrim trimLeft
  rw [dropWhile_append_gen]
  by_cases hm : (m.dropWhile isPyWs).isEmpty
  · rw [if_pos hm]
    rw [List.isEmpty_iff] at hm
    rw [hm, List.dropWhile_eq_nil_iff.mpr (fun c hc => hw c hc)]
  · rw [if_neg hm]
    exact trimRight_ws_append _ w hw

theorem stripFences_pyTrim (x : List Char) :
    pyTrim (stripFences (pyTrim x)) = pyTrim (stripFences x) := by
  have hx : x = x.takeWhile isPyWs ++ trimLeft x :=
    (List.takeWhile_append_dropWhile isPyWs x).symm
  have hw1 : ∀ c ∈ x.takeWhile isPyWs, isPyWs c = true :=
    fun c hc => List.mem_takeWhile_imp hc
  have hy : trimLeft x = pyTrim x ++ ((trimLeft x).reverse.takeWhile isPyWs).reverse := by
    have h2 := congrArg List.reverse
      (List.takeWhile_append_dropWhile isPyWs (trimLeft x).reverse)
    rw [List.reverse_append, List.reverse_reverse] at h2
    conv_lhs => rw [← h2]
    rfl
  have hw2 : ∀ c ∈ ((trimLeft x).reverse.takeWhile isPyWs).reverse, isPyWs c = true :=
    fun c hc => List.mem_takeWhile_imp (List.mem_reverse.mp hc)
  conv_rhs => rw [hx, stripFences_ws_append _ _ hw1, pyTrim_ws_left _ _ hw1]
  conv_rhs => rw [hy]
  cases hcase : ((trimLeft x).reverse.takeWhile isPyWs).reverse with
  | nil => simp
  | cons d w' =>
    have hd : isPyWs d = true := hw2 d (hcase ▸ List.mem_cons_self d w')
    obtain ⟨h1, h2, h3, h4, h5⟩ := isPyWs_ne d hd
    rw [stripFences_append (pyTrim x) (d :: w') ⟨h1, h2, h3, h4, h5⟩]
    rw [stripFences_no_tick (d :: w')
      (fun c hc => (isPyWs_ne c (hw2 c (hcase ▸ hc))).1)]
    rw [pyTrim_ws_right _ _ (fun c hc => hw2 c (hcase ▸ hc))]

theorem geminiClean_fenceWrap (t : String) : geminiClean (fenceWrap t) = geminiClean t := by
  unfold geminiClean fenceWrap
  have hdata : ("```json\n" ++ t ++ "\n```").data =
      tick :: tick :: tick :: 'j' :: 's' :: 'o' :: 'n' :: '\n' ::
        (t.data ++ ('\n' :: tick :: tick :: tick :: [])) := by
    rw [String.data_append, String.data_append]
    rw [show ("```json\n" : String).data =
        tick :: tick :: tick :: 'j' :: 's' :: 'o' :: 'n' :: '\n' :: [] by decide]
    rw [show ("\n```" : String).data = '\n' :: tick :: tick :: tick :: [] by decide]
    simp
  rw [hdata]
  have htrim : pyTrim (tick :: tick :: tick :: 'j' :: 's' :: 'o' :: 'n' :: '\n' ::
      (t.data ++ ('\n' :: tick :: tick :: tick :: []))) =
      tick :: tick :: tick :: 'j' :: 's' :: 'o' :: 'n' :: '\n' ::
        (t.data ++ ('\n' :: tick :: tick :: tick :: [])) := by
    unfold pyTrim
    have hL : trimLeft (tick :: tick :: tick :: 'j' :: 's' :: 'o' :: 'n' :: '\n' ::
        (t.data ++ ('\n' :: tick :: tick :: tick :: []))) =
        tick :: tick :: tick :: 'j' :: 's' :: 'o' :: 'n' :: '\n' ::
          (t.data ++ ('\n' :: tick :: tick :: tick :: [])) := by
      unfold trimLeft
      rw [List.dropWhile_cons, if_neg (by decide : ¬(isPyWs tick = true))]
    rw [hL]
    rw [show tick :: tick :: tick :: 'j' :: 's' :: 'o' :: 'n' :: '\n' ::
        (t.data ++ ('\n' :: tick :: tick :: tick :: [])) =
        (tick :: tick :: tick :: 'j' :: 's' :: 'o' :: 'n' :: '\n' ::
          (t.data ++ ('\n' :: tick :: tick :: []))) ++ [tick] by simp]
    unfold trimRight
    rw [List.reverse_append]
    rw [show ([tick] : List Char).reverse = [tick] from rfl]
    rw [List.cons_append, List.nil_append, List.dropWhile_cons,
      if_neg (by decide : ¬(isPyWs tick = true))]
    rw [List.reverse_cons, List.reverse_reverse]
  rw [htrim]
  have hstrip : stripFences (tick :: tick :: tick :: 'j' :: 's' :: 'o' :: 'n' :: '\n' ::
      (t.data ++ ('\n' :: tick :: tick :: tick :: []))) =
      '\n' :: (stripFences t.data ++ ['\n']) := by
    rw [stripFences_triple]
    rw [show (match ('j' :: 's' :: 'o' :: 'n' :: '\n' ::
        (t.data ++ ('\n' :: tick :: tick :: tick :: []))) with
        | 'j' :: 's' :: 'o' :: 'n' :: rest7 => stripFences rest7
        | r7 => stripFences r7) =
        stripFences ('\n' :: (t.data ++ ('\n' :: tick :: tick :: tick :: []))) by simp]
    rw [stripFences_cons _ _ (by decide : ('\n' : Char) ≠ tick)]
    rw [stripFences_append t.data ('\n' :: tick :: tick :: tick :: [])
      ⟨by decide, by decide, by decide, by decide, by decide⟩]
    rw [show stripFences ('\n' :: tick :: tick :: tick :: []) = ['\n'] by
      rw [stripFences_cons _ _ (by decide : ('\n' : Char) ≠ tick), stripFences_triple]
      simp [stripFences_nil]]
  rw [hstrip]
  rw [show ('\n' :: (stripFences t.data ++ ['\n']) : List Char) =
      ['\n'] ++ (stripFences t.data ++ ['\n']) from rfl]
  rw [pyTrim_ws_left ['\n'] _ (by decide)]
  rw [pyTrim_ws_right _ ['\n'] (by decide)]
  rw [stripFences_pyTrim t.data]

/-! ## The strict-parse path on flat JSON objects -/

theorem canonList_strs (l : List String) :
    canonList (l.map Json.str) = l.map Json.str := by
  induction l with
  | nil => simp [canonList]
  | cons a l ih => simp [canonList, canonJ, ih]

set_option maxHeartbeats 1000000 in
theorem formatResponse_flat (q r ad d : String) (arts : List String) :
    formatResponse (dumps (Json.obj
      [(("qualification"), Json.str q),
       (("applicable_articles"), Json.arr (arts.map Json.str)),
       (("risks"), Json.str r),
       (("advice"), Json.str ad),
       (("disclaimer"), Json.str d)])) =
      { qualification := q, applicable_articles := arts, risks := r,
        advice := ad, disclaimer := LEGAL_DISCLAIMER } := by
  unfold formatResponse formatResponseE
  rw [jsonLoads_dumps]
  have hc : canonJ (Json.obj
      [(("qualification"), Json.str q),
       (("applicable_articles"), Json.arr (arts.map Json.str)),
       (("risks"), Json.str r),
       (("advice"), Json.str ad),
       (("disclaimer"), Json.str d)]) = Json.obj
      [(("qualification"), Json.str q),
       (("applicable_articles"), Json.arr (arts.map Json.str)),
       (("risks"), Json.str r),
       (("advice"), Json.str ad),
       (("disclaimer"), Json.str d)] := by
    simp +decide [canonJ, canonPairs, objFromPairs, dictSet, canonList_strs]
  rw [hc]
  simp +decide [validateResponseFields, fillDefaults, requiredDefaults, isAbsentOrNull,
    dictGet, dictSet, coerceStrField, coerceArticles, mkAnalysisResponse, strOf, strListOf,
    mapM_loop_strOf, List.mapM]

/-- The Normalizer on an Error input is format_response applied to the
service error fallback. -/
theorem normalizeOut_error (msg : String) :
    normalizeOut (RawModelOutput.error msg) =
      { qualification := "Erreur d'analyse", applicable_articles := [],
        risks := "Une erreur est survenue : " ++ String.mk (msg.data.take 100),
        advice := "Contactez le support si le problème persiste.",
        disclaimer := LEGAL_DISCLAIMER } := by
  have h : normalizeOut (RawModelOutput.error msg) =
      formatResponse (errorFallback msg) := rfl
  rw [h, errorFallback]
  rw [show errJson msg = Json.obj
      [(("qualification"), Json.str "Erreur d'analyse"),
       (("applicable_articles"), Json.arr (([] : List String).map Json.str)),
       (("risks"), Json.str ("Une erreur est survenue : " ++ String.mk (msg.data.take 100))),
       (("advice"), Json.str "Contactez le support si le problème persiste."),
       (("disclaimer"), Json.str "Erreur système.")] from rfl]
  rw [formatResponse_flat]

/-- The Normalizer on a Timeout input is format_response applied to the
service timeout fallback. -/
theorem normalizeOut_timeout :
    normalizeOut RawModelOutput.timeout =
      { qualification := "Délai d'attente dépassé", applicable_articles := [],
        risks := "L'analyse a pris trop de temps.",
        advice := "Veuillez réessayer avec une question plus courte.",
        disclaimer := LEGAL_DISCLAIMER } := by
  have h : normalizeOut RawModelOutput.timeout =
      formatResponse timeoutFallback := rfl
  rw [h, timeoutFallback]
  rw [show timeoutJson = Json.obj
      [(("qualification"), Json.str "Délai d'attente dépassé"),
       (("applicable_articles"), Json.arr (([] : List String).map Json.str)),
       (("risks"), Json.str "L'analyse a pris trop de temps."),
       (("advice"), Json.str "Veuillez réessayer avec une question plus courte."),
       (("disclaimer"), Json.str "Erreur système.")] from rfl]
  rw [formatResponse_flat]

/-- Whatever _call_gemini returns on the success path parses as JSON. -/
theorem callGeminiPost_isSome (text : String) :
    (jsonLoads (callGeminiPost text)).isSome := by
  unfold callGeminiPost
  cases h : jsonLoads (geminiClean text) with
  | some d => rw [jsonLoads_dumps]; rfl
  | none => rw [errorFallback, jsonLoads_dumps]; rfl

/-! ## Concrete inputs used by the claims -/

theorem jsonLoads_empty : jsonLoads "" = none := by
  simp [jsonLoads, skipWs, parseVal]

theorem jsonLoads_blank : jsonLoads "   " = none := by
  simp +decide [jsonLoads, skipWs, parseVal, jsonWs]

theorem jsonLoads_heuristic_text :
    jsonLoads "Qualification: defamation risk\nRisks: civil liability\nArticle 12 - Code Pénal" = none := by
  simp +decide [jsonLoads, skipWs, parseVal, jsonWs, parseNum, parseUNat]

/-- On a JSON parse failure the Normalizer result is exactly the
text-extraction record. -/
theorem normalizeOut_textPath (s : String) (h : jsonLoads s = none) :
    normalizeOut (RawModelOutput.success s) =
      { qualification := extractSection s ("qualification"),
        applicable_articles := extractArticles s,
        risks := extractSection s ("risks"),
        advice := extractSection s ("advice"),
        disclaimer := LEGAL_DISCLAIMER } := by
  have hh : normalizeOut (RawModelOutput.success s) = formatResponse s := rfl
  rw [hh]
  unfold formatResponse formatResponseE
  rw [h, parseTextResponseE_eq]
  rfl

set_option maxRecDepth 10000 in
theorem normalizeOut_empty :
    normalizeOut (RawModelOutput.success "") =
      { qualification := "", applicable_articles := [], risks := "", advice := "",
        disclaimer := LEGAL_DISCLAIMER } := by
  rw [normalizeOut_textPath "" jsonLoads_empty]
  decide

set_option maxRecDepth 10000 in
theorem normalizeOut_blank :
    normalizeOut (RawModelOutput.success "   ") =
      { qualification := "", applicable_articles := [], risks := "", advice := "",
        disclaimer := LEGAL_DISCLAIMER } := by
  rw [normalizeOut_textPath "   " jsonLoads_blank]
  decide

/-! ## The claims -/

/-- Claim C1: the Normalizer is total — for every RawModelOutput (any success
text, a timeout, or any error message) format_response produces a
fully-populated AnalysisResponse and no exception escapes to the caller. -/
theorem C1_normalizer_total (x : RawModelOutput) : ∃ r, normalizeE x = some r := by
  cases x with
  | success t => exact formatResponseE_isSome t
  | timeout => exact formatResponseE_isSome timeoutFallback
  | error m => exact formatResponseE_isSome (errorFallback m)

/-- Claim C1 witness at a concrete input. -/
theorem C1_normalizer_total_witness : ∃ r, normalizeE (RawModelOutput.success "") = some r :=
  C1_normalizer_total (RawModelOutput.success "")

/-- Claim C2: on every input and on every path the disclaimer field of the
Normalizer's result is exactly the canonical LEGAL_DISCLAIMER constant. -/
theorem C2_disclaimer_invariant (x : RawModelOutput) :
    (normalizeOut x).disclaimer = LEGAL_DISCLAIMER := by
  cases x with
  | success t => exact formatResponse_disclaimer t
  | timeout => exact formatResponse_disclaimer timeoutFallback
  | error m => exact formatResponse_disclaimer (errorFallback m)

/-- Claim C3 counterexample: a valid JSON object whose applicable_articles is
already a list is kept as-is by _validate_response_fields, so twelve articles
pass through and the output breaks the claimed 10-entry cap. -/
theorem C3_articles_counterexample :
    10 < (normalizeOut (RawModelOutput.success (dumps (Json.obj
      [(("qualification"), Json.str "q"),
       (("applicable_articles"), Json.arr ((["Article 1", "Article 2", "Article 3",
          "Article 4", "Article 5", "Article 6", "Article 7", "Article 8", "Article 9",
          "Article 10", "Article 11", "Article 12"]).map Json.str)),
       (("risks"), Json.str "r"),
       (("advice"), Json.str "a"),
       (("disclaimer"), Json.str "d")])))).applicable_articles.length := by
  have hh : normalizeOut (RawModelOutput.success (dumps (Json.obj
      [(("qualification"), Json.str "q"),
       (("applicable_articles"), Json.arr ((["Article 1", "Article 2", "Article 3",
          "Article 4", "Article 5", "Article 6", "Article 7", "Article 8", "Article 9",
          "Article 10", "Article 11", "Article 12"]).map Json.str)),
       (("risks"), Json.str "r"),
       (("advice"), Json.str "a"),
       (("disclaimer"), Json.str "d")]))) = formatResponse (dumps (Json.obj
      [(("qualification"), Json.str "q"),
       (("applicable_articles"), Json.arr ((["Article 1", "Article 2", "Article 3",
          "Article 4", "Article 5", "Article 6", "Article 7", "Article 8", "Article 9",
          "Article 10", "Article 11", "Article 12"]).map Json.str)),
       (("risks"), Json.str "r"),
       (("advice"), Json.str "a"),
       (("disclaimer"), Json.str "d")])) := rfl
  rw [hh, formatResponse_flat]
  decide

/-- Claim C3 (amended): on the heuristic text path the article list is
exactly the first-seen deduplication of the stripped pattern-order matches
truncated to 10 — hence unique, in first-seen order, and capped at 10
entries; the strict JSON path keeps a supplied list unchanged. -/
theorem C3_articles_capped_amended (s : String) (h : jsonLoads s = none) :
    (normalizeOut (RawModelOutput.success s)).applicable_articles =
      (firstSeen ((allArticleMatches s).map pyStripS)).take 10 ∧
    (normalizeOut (RawModelOutput.success s)).applicable_articles.Nodup ∧
    (normalizeOut (RawModelOutput.success s)).applicable_articles.length ≤ 10 := by
  have hh : normalizeOut (RawModelOutput.success s) = formatResponse s := rfl
  rw [hh]
  unfold formatResponse formatResponseE
  rw [h, parseTextResponseE_eq]
  exact ⟨extractArticles_eq s, nodup_extractArticles s, length_extractArticles s⟩

/-- Claim C3 (amended) witness at a concrete input. -/
theorem C3_articles_capped_amended_witness :
    jsonLoads "" = none ∧
    ((normalizeOut (RawModelOutput.success "")).applicable_articles =
       (firstSeen ((allArticleMatches "").map pyStripS)).take 10 ∧
     (normalizeOut (RawModelOutput.success "")).applicable_articles.Nodup ∧
     (normalizeOut (RawModelOutput.success "")).applicable_articles.length ≤ 10) :=
  ⟨jsonLoads_empty, C3_articles_capped_amended "" jsonLoads_empty⟩

/-- Claim C4 counterexample: the empty and whitespace-only inputs do not
produce the generic "Unable to analyze request" result — the heuristic path
succeeds with empty sections, so the generic error branch is not reached. -/
theorem C4_generic_fallback_counterexample :
    normalizeOut (RawModelOutput.success "") ≠ genericErrorResponse ∧
    normalizeOut (RawModelOutput.success "   ") ≠ genericErrorResponse := by
  rw [normalizeOut_empty, normalizeOut_blank]
  refine ⟨?_, ?_⟩ <;> (intro h; simp [genericErrorResponse] at h)

/-- Claim C4 (amended): on Success("") and Success("   ") the Normalizer
returns the record with all-empty heuristic sections, no articles, and the
canonical disclaimer — not the generic error result. -/
theorem C4_unparsable_fallback_amended :
    normalizeOut (RawModelOutput.success "") =
      { qualification := "", applicable_articles := [], risks := "", advice := "",
        disclaimer := LEGAL_DISCLAIMER } ∧
    normalizeOut (RawModelOutput.success "   ") =
      { qualification := "", applicable_articles := [], risks := "", advice := "",
        disclaimer := LEGAL_DISCLAIMER } :=
  ⟨normalizeOut_empty, normalizeOut_blank⟩

set_option maxRecDepth 10000 in
/-- Claim C5: on the non-JSON heuristic example the qualification carries the
lines following the "Qualification" marker, applicable_articles contains
"Article 12 - Code Pénal", and the disclaimer is canonical. -/
theorem C5_heuristic_example :
    normalizeOut (RawModelOutput.success
        "Qualification: defamation risk\nRisks: civil liability\nArticle 12 - Code Pénal") =
      { qualification := "Risks: civil liability\nArticle 12 - Code Pénal",
        applicable_articles := ["Article 12 - Code Pénal", "Code P"],
        risks := "Article 12 - Code Pénal",
        advice := "",
        disclaimer := LEGAL_DISCLAIMER } ∧
    "Article 12 - Code Pénal" ∈ (normalizeOut (RawModelOutput.success
        "Qualification: defamation risk\nRisks: civil liability\nArticle 12 - Code Pénal")).applicable_articles := by
  rw [normalizeOut_textPath _ jsonLoads_heuristic_text]
  refine ⟨?_, ?_⟩ <;> decide

/-- Claim C6: wrapping any model text in markdown json fences does not change
the cleaned text nor the final result of the composed service pipeline. -/
theorem C6_fence_stripping (t : String) :
    geminiClean (fenceWrap t) = geminiClean t ∧
    fullPipeline (fenceWrap t) = fullPipeline t := by
  have h := geminiClean_fenceWrap t
  refine ⟨h, ?_⟩
  unfold fullPipeline callGeminiPost
  rw [h]

/-- Claim C7: the flat JSON object round-trips — every content field is kept
and the supplied disclaimer is replaced by the canonical constant; the
serialized input text is the shown literal. -/
theorem C7_json_roundtrip :
    normalizeOut (RawModelOutput.success (dumps (Json.obj
      [(("qualification"), Json.str "Q"),
       (("applicable_articles"), Json.arr ((["A1", "A2"]).map Json.str)),
       (("risks"), Json.str "R"),
       (("advice"), Json.str "Ad"),
       (("disclaimer"), Json.str "ignored")]))) =
      { qualification := "Q", applicable_articles := ["A1", "A2"], risks := "R",
        advice := "Ad", disclaimer := LEGAL_DISCLAIMER } ∧
    dumps (Json.obj
      [(("qualification"), Json.str "Q"),
       (("applicable_articles"), Json.arr ((["A1", "A2"]).map Json.str)),
       (("risks"), Json.str "R"),
       (("advice"), Json.str "Ad"),
       (("disclaimer"), Json.str "ignored")]) =
      "\x7b\"qualification\": \"Q\", \"applicable_articles\": [\"A1\", \"A2\"], \"risks\": \"R\", \"advice\": \"Ad\", \"disclaimer\": \"ignored\"\x7d" := by
  constructor
  · exact formatResponse_flat "Q" "R" "Ad" "ignored" ["A1", "A2"]
  · simp +decide [dumps, dumpsL, dumpsMembers, dumpsMember, dumpsElems, escList, escChar,
      hex4Chars, hexDigChar, natDigits, intChars]

/-- Claim C8: _extract_articles is the pattern-order match list, stripped,
deduplicated to first occurrences, truncated to 10; its result has no
duplicates and at most 10 entries. -/
theorem C8_article_cap_dedup (text : String) :
    extractArticles text = (firstSeen ((allArticleMatches text).map pyStripS)).take 10 ∧
    (extractArticles text).Nodup ∧ (extractArticles text).length ≤ 10 :=
  ⟨extractArticles_eq text, nodup_extractArticles text, length_extractArticles text⟩

/-- Claim C9: an Error(msg) input yields the fixed error record whose risks
field embeds exactly the first 100 characters of msg (hence at most 100),
with empty articles and the canonical disclaimer in the final output. -/
theorem C9_error_truncation (msg : String) :
    normalizeOut (RawModelOutput.error msg) =
      { qualification := "Erreur d'analyse", applicable_articles := [],
        risks := "Une erreur est survenue : " ++ String.mk (msg.data.take 100),
        advice := "Contactez le support si le problème persiste.",
        disclaimer := LEGAL_DISCLAIMER } ∧
    (String.mk (msg.data.take 100)).length ≤ 100 :=
  ⟨normalizeOut_error msg, List.length_take_le 100 msg.data⟩

/-- Claim C10: the post-processing of _call_gemini always hands
format_response a string that parses as JSON — either the re-serialization of
the parsed model output or the fixed French error fallback — so the heuristic
text branch of format_response is never reached in the composed pipeline. -/
theorem C10_pipeline_always_json (text : String) :
    (jsonLoads (callGeminiPost text)).isSome ∧
    ((∃ d, jsonLoads (geminiClean text) = some d ∧ callGeminiPost text = dumps d) ∨
      callGeminiPost text = errorFallback ("L'IA a produit un format incompatible.")) := by
  refine ⟨callGeminiPost_isSome text, ?_⟩
  unfold callGeminiPost
  cases h : jsonLoads (geminiClean text) with
  | some d => exact Or.inl ⟨d, rfl, rfl⟩
  | none => exact Or.inr rfl
